import Mathlib

/-!
# The libct execution driver (`daemon/execdriver/libct`)

A shallow embedding of `driver.go`: the registered init function, `Run`,
`rootIsShared`, `GetPidsForContainer` and `Info`, together with the Go
standard-library routines their behaviour rests on (`strings.Split`,
`strings.HasPrefix`, `strconv.Atoi`).

Go strings are modelled by `String`; the byte-level routines work on the
underlying `List Char`, a byte being read as the symbol of that code.  Every
routine below only ever compares single symbols with ASCII characters, so the
results hold for arbitrary contents.

What the driver calls outside this package (the libct backend, `execdriver`,
`utils`, `cgroups`, the file system, `path.Join`, `exec.LookPath`) is a
parameter: a record of functions over a world state.  Every backend call is
recorded in a trace, so that the order of the calls can be stated; and the
trace is proved to be what a backend that records its own calls receives.
-/

namespace Libct

/-! ## Go standard library: `strings` -/

/-- The fields of `s` separated by the single symbol `sep`
(`strings.Split` with a one-byte separator): an empty input gives one empty
field, and `k` separators give `k + 1` fields. -/
def splitChars (sep : Char) : List Char → List (List Char)
  | [] => [[]]
  | c :: cs =>
    if c = sep then [] :: splitChars sep cs
    else
      match splitChars sep cs with
      | [] => [[c]]
      | f :: fs => (c :: f) :: fs

/-- Go `strings.Split(s, sep)` for a one-byte separator `sep`. -/
def Split (s : String) (sep : Char) : List String :=
  (splitChars sep s.data).map String.mk

/-- Go `strings.HasPrefix(s, p)` on the underlying symbols. -/
def hasPrefixChars : List Char → List Char → Bool
  | _, [] => true
  | [], _ :: _ => false
  | c :: cs, p :: ps => c == p && hasPrefixChars cs ps

/-- Go `strings.HasPrefix`. -/
def HasPrefix (s p : String) : Bool :=
  hasPrefixChars s.data p.data

/-- A Go `error` value, known by its text. -/
structure GoError where
  text : String
  deriving DecidableEq, Repr

/-! ## Go standard library: `strconv` -/

/-- The two error causes of package `strconv`. -/
inductive StrconvErr where
  | ErrSyntax
  | ErrRange
  deriving DecidableEq, Repr

/-- Go `strconv.NumError`: the failing function, the input and the cause. -/
structure NumError where
  Func : String
  Num : String
  Err : StrconvErr
  deriving DecidableEq, Repr

/-- The text of a `strconv` error cause. -/
def StrconvErr.Error : StrconvErr → String
  | .ErrSyntax => "invalid syntax"
  | .ErrRange => "value out of range"

/-- Go `(*NumError).Error()`; `strconv.Quote` is taken as the parameter
`quote`. -/
def NumError.Error (quote : String → String) (e : NumError) : String :=
  "strconv." ++ e.Func ++ ": parsing " ++ quote e.Num ++ ": " ++ e.Err.Error

/-- The value of one symbol as a digit, as the `switch` of `ParseUint`
computes it; `none` is its `default` branch. -/
def digitOf (d : Char) : Option Nat :=
  if 48 ≤ d.toNat ∧ d.toNat ≤ 57 then some (d.toNat - 48)
  else if 97 ≤ d.toNat ∧ d.toNat ≤ 122 then some (d.toNat - 97 + 10)
  else if 65 ≤ d.toNat ∧ d.toNat ≤ 90 then some (d.toNat - 65 + 10)
  else none

/-- The digit loop of `strconv.ParseUint` on `uint64` arithmetic: the
accumulated value and the error cause, if any. -/
def parseUintLoop (base cutoff maxVal : Nat) : List Char → Nat → Nat × Option StrconvErr
  | [], n => (n, none)
  | d :: ds, n =>
    match digitOf d with
    | none => (0, some .ErrSyntax)
    | some v =>
      if v ≥ base then (0, some .ErrSyntax)
      else if n ≥ cutoff then (2 ^ 64 - 1, some .ErrRange)
      else
        let n10 := (n * base) % 2 ^ 64
        let n1 := (n10 + v) % 2 ^ 64
        if n1 < n10 ∨ n1 > maxVal then (2 ^ 64 - 1, some .ErrRange)
        else parseUintLoop base cutoff maxVal ds n1

/-- Go `strconv.ParseUint(s, base, bitSize)` for `2 ≤ base ≤ 36` and
`bitSize ≠ 0`. -/
def ParseUint (s : List Char) (base bitSize : Nat) : Nat × Option StrconvErr :=
  match s with
  | [] => (0, some .ErrSyntax)
  | _ :: _ => parseUintLoop base ((2 ^ 64 - 1) / base + 1) (2 ^ bitSize - 1) s 0

/-- Conversion of an integer to `int64` (two's complement wrap-around). -/
def wrapInt64 (z : Int) : Int :=
  (z + 2 ^ 63) % 2 ^ 64 - 2 ^ 63

/-- The size in bits of a Go `int` (`strconv.IntSize`) on amd64, the
platform this package is built for. -/
def IntSize : Nat := 64

/-- Go `strconv.ParseInt(s, 10, bitSize)` for `bitSize ≠ 0`. -/
def ParseInt (s : String) (bitSize : Nat) : Int × Option NumError :=
  match s.data with
  | [] => (0, some ⟨"ParseInt", s, .ErrSyntax⟩)
  | c :: cs =>
    let neg : Bool := c == '-'
    let body := if c = '+' ∨ c = '-' then cs else c :: cs
    let r := ParseUint body 10 bitSize
    let un := r.1
    if r.2 ≠ none ∧ r.2 ≠ some .ErrRange then (0, some ⟨"ParseInt", s, .ErrSyntax⟩)
    else
      let cutoff : Nat := 2 ^ (bitSize - 1)
      if neg = false ∧ un ≥ cutoff then
        (wrapInt64 ((cutoff : Int) - 1), some ⟨"ParseInt", s, .ErrRange⟩)
      else if neg = true ∧ un > cutoff then
        (wrapInt64 (-(cutoff : Int)), some ⟨"ParseInt", s, .ErrRange⟩)
      else
        let n := wrapInt64 (un : Int)
        (if neg then wrapInt64 (-n) else n, none)

/-- Go `strconv.Atoi(s)`, shorthand for `ParseInt(s, 10, 0)` converted to
`int`. -/
def Atoi (s : String) : Int × Option NumError :=
  ParseInt s IntSize

/-! ## Decimal numerals, as a specification -/

/-- The symbol is one of `0` … `9`. -/
def isDecDigit (c : Char) : Bool :=
  decide (48 ≤ c.toNat) && decide (c.toNat ≤ 57)

/-- The value of the digits `ds` read after the value `n`. -/
def readDigits (n : Nat) (ds : List Char) : Nat :=
  ds.foldl (fun n c => 10 * n + (c.toNat - 48)) n

/-- The number a string of decimal digits denotes. -/
def decimalValue (ds : List Char) : Nat :=
  readDigits 0 ds

/-- An optional leading sign, split from the rest of the numeral: whether
the sign is `-`, and the rest. -/
def signAndDigits : List Char → Bool × List Char
  | [] => (false, [])
  | c :: cs =>
    if c = '-' then (true, cs) else if c = '+' then (false, cs) else (false, c :: cs)

/-- A valid integer: an optional sign followed by one or more decimal
digits, denoting a number a Go `int` can hold. -/
def ValidInt (s : String) : Prop :=
  (signAndDigits s.data).2 ≠ [] ∧
  (∀ c ∈ (signAndDigits s.data).2, isDecDigit c = true) ∧
  (if (signAndDigits s.data).1 then decimalValue (signAndDigits s.data).2 ≤ 2 ^ 63
   else decimalValue (signAndDigits s.data).2 < 2 ^ 63)

instance (s : String) : Decidable (ValidInt s) := by
  unfold ValidInt; infer_instance

/-- The integer a valid numeral denotes. -/
def intValue (s : String) : Int :=
  if (signAndDigits s.data).1 then -(decimalValue (signAndDigits s.data).2 : Int)
  else (decimalValue (signAndDigits s.data).2 : Int)

/-! ## Host environment probe -/

/-- The loop of `rootIsShared` over the lines of the mount table.  The result
is `some (some b)` when a `return b` inside the loop was reached, `some none`
when the loop ran to its end, and `none` when the index expression `cols[6]`
was evaluated on a row of fewer than seven columns (a Go run-time panic,
"index out of range"). -/
def rootIsSharedLoop : List String → Option (Option Bool)
  | [] => some none
  | line :: rest =>
    let cols := Split line ' '
    if decide (cols.length ≥ 6) && decide (cols.get? 4 = some "/") then
      match cols.get? 6 with
      | some col => some (some (HasPrefix col "shared"))
      | none => none
    else rootIsSharedLoop rest

/-- The function `rootIsShared` as a function of the result of reading
`/proc/self/mountinfo`.  `none` is the run-time panic of an out-of-range
index. -/
def rootIsShared (read : Except GoError String) : Option Bool :=
  match read with
  | .ok data =>
    match rootIsSharedLoop (Split data '\n') with
    | none => none
    | some (some b) => some b
    -- No idea, probably safe to assume so
    | some none => some true
  | .error _ => some true

/-! ## Data model -/

/-- The driver name. -/
def DriverName : String := "libct"

/-- Go `execdriver.Mount`. -/
structure Mount where
  Source : String
  Destination : String
  Writable : Bool
  Private : Bool
  deriving DecidableEq, Repr

/-- Go `execdriver.Command`, with the fields of the embedded `exec.Cmd` the
driver uses (`Path`, `Args`, `Env`). -/
structure Command where
  Path : String
  Args : List String
  Env : List String
  ID : String
  Privileged : Bool
  User : String
  Rootfs : String
  InitPath : String
  Entrypoint : String
  Arguments : List String
  WorkingDir : String
  Tty : Bool
  Mounts : List Mount
  Console : String
  ContainerPid : Int
  deriving DecidableEq, Repr

/-- Go `execdriver.Pipes`: the three caller-supplied stream endpoints. -/
structure Pipes where
  Stdin : Option Nat
  Stdout : Option Nat
  Stderr : Option Nat
  deriving DecidableEq, Repr

/-- The driver record; its `session` lives in the world state. -/
structure driver where
  root : String
  apparmor : Bool
  sharedRoot : Bool
  deriving DecidableEq, Repr

/-- The run states of a container. -/
def CT_ERROR : Int := -1

/-- The container is stopped. -/
def CT_STOPPED : Int := 0

/-- The container is running. -/
def CT_RUNNING : Int := 1

/-- A snapshot of the run state of a container. -/
structure info where
  ID : String
  driver : driver
  state : Int
  deriving DecidableEq, Repr

/-- Go `(*info).IsRunning`. -/
def info.IsRunning (i : info) : Bool :=
  i.state == CT_RUNNING

/-- The calls a driver operation issues on the isolation backend, and the
lines it writes to standard output, in the order they happen. -/
inductive Event where
  | Println (args : List String)
  | CreateCt (id : String)
  | OpenCt (id : String)
  | AddMount (src dst : String)
  | SetOption (opt : Int)
  | SetFsRoot (root : String)
  | SetNsMask (mask : Nat)
  | CtRun (path : String) (argv env : List String)
  | Wait
  | State
  deriving DecidableEq, Repr

/-- Everything outside this package the driver calls, over a world state `σ`
and container handles `κ`: the libct session and container operations, the
parts of this repository that are not in this package (`execdriver`, `utils`,
`cgroups`) and the Go standard library. -/
structure Sys (σ κ : Type) where
  -- `execdriver.SetTerminal(c, pipes)`: the descriptor as it leaves it, and the error
  SetTerminal : Command → Pipes → σ → (Command × Option GoError) × σ
  -- `json.Marshal` on a list of strings
  Marshal : List String → Except GoError String
  -- `path.Join`
  Join : List String → String
  -- `ioutil.WriteFile(path, data, perm)`
  WriteFile : String → String → Nat → σ → Option GoError × σ
  -- `(*libct.Session).CreateCt` and `OpenCt`
  CreateCt : String → σ → Except GoError κ × σ
  OpenCt : String → σ → Except GoError κ × σ
  -- the operations of a libct container handle
  AddMount : κ → String → String → σ → Option GoError × σ
  SetOption : κ → Int → σ → Option GoError × σ
  SetFsRoot : κ → String → σ → Option GoError × σ
  SetNsMask : κ → Nat → σ → Option GoError × σ
  CtRun : κ → String → List String → List String → σ → Except GoError Int × σ
  Wait : κ → σ → Option GoError × σ
  State : κ → σ → (Int × Option GoError) × σ
  -- `utils.ShellQuoteArguments`
  ShellQuoteArguments : List String → String
  -- `exec.LookPath`
  LookPath : String → σ → Except GoError String
  -- `cgroups.FindCgroupMountpoint` and `cgroups.GetThisCgroupDir`
  FindCgroupMountpoint : String → σ → Except GoError String
  GetThisCgroupDir : String → σ → Except GoError String
  -- `filepath.Join`
  filepathJoin : List String → String
  -- `os.Stat` followed by `os.IsNotExist` on its error
  StatIsNotExist : String → σ → Bool
  -- `ioutil.ReadFile`
  ReadFile : String → σ → Except GoError String
  -- `strconv.Quote`
  Quote : String → String

/-- Linux `CLONE_NEWNS`. -/
def CLONE_NEWNS : Nat := 0x20000

/-- Linux `CLONE_NEWPID`. -/
def CLONE_NEWPID : Nat := 0x20000000

/-! ## `Run` -/

variable {σ κ : Type}

/-- Go `(*driver).generateEnvConfig`: the changed descriptor, the returned
error and the new world state. -/
def generateEnvConfig (sys : Sys σ κ) (d : driver) (c : Command) (s : σ) :
    (Command × Option GoError) × σ :=
  match sys.Marshal c.Env with
  | .error err => ((c, some err), s)
  | .ok data =>
    let p := sys.Join [d.root, "containers", c.ID, "config.env"]
    let c := { c with Mounts := c.Mounts ++ [⟨p, "/.dockerenv", false, true⟩] }
    let (err, s) := sys.WriteFile p data 0o600 s
    ((c, err), s)

/-- The loop `for _, m := range c.Mounts` of `Run`; the result of `AddMount`
is dropped. -/
def replayMounts (sys : Sys σ κ) (ct : κ) : List Mount → σ → List Event → σ × List Event
  | [], s, log => (s, log)
  | m :: ms, s, log =>
    let log := log ++ [Event.Println ["%s %s", m.Source, m.Destination]]
    let (_, s) := sys.AddMount ct m.Source m.Destination s
    replayMounts sys ct ms s (log ++ [Event.AddMount m.Source m.Destination])

/-- What a call of `Run` leaves behind: the two returned values, the
descriptor as `Run` left it, the world state and the trace of events. -/
structure RunResult (σ : Type) where
  code : Int
  err : Option GoError
  cmd : Command
  world : σ
  log : List Event

/-- The state of `Run` once the container handle is configured. -/
structure Configured (σ κ : Type) where
  cmd : Command
  ct : κ
  world : σ
  log : List Event

/-- The mount-replay step of `Run`: the loop over `c.Mounts`, then the
console mount of an interactive command.  The result of `AddMount` is
dropped in both places. -/
def mountAll (sys : Sys σ κ) (ct : κ) (c : Command) (s : σ) (log : List Event) :
    σ × List Event :=
  let (s, log) := replayMounts sys ct c.Mounts s log
  if c.Tty then
    let log := log ++ [Event.Println ["%s", c.Console]]
    let (_, s) := sys.AddMount ct c.Console "/dev/console" s
    (s, log ++ [Event.AddMount c.Console "/dev/console"])
  else (s, log)

/-- The settings `Run` applies after the mounts: the option flag, the
filesystem root (assigned twice) and the namespace mask, each one checked.
`.error r` is an early `return -1, err`. -/
def applySettings (sys : Sys σ κ) (ct : κ) (c : Command) (s : σ) (log : List Event) :
    Except (RunResult σ) (Configured σ κ) :=
  let log := log ++ [Event.SetOption 1]
  match sys.SetOption ct 1 s with
  | (some err, s) => .error ⟨-1, some err, c, s, log⟩
  | (none, s) =>
  let log := log ++ [Event.SetFsRoot c.Rootfs]
  match sys.SetFsRoot ct c.Rootfs s with
  | (some err, s) => .error ⟨-1, some err, c, s, log⟩
  | (none, s) =>
  let log := log ++ [Event.SetFsRoot c.Rootfs]
  match sys.SetFsRoot ct c.Rootfs s with
  | (some err, s) => .error ⟨-1, some err, c, s, log⟩
  | (none, s) =>
  let log := log ++ [Event.SetNsMask (CLONE_NEWNS ||| CLONE_NEWPID)]
  match sys.SetNsMask ct (CLONE_NEWNS ||| CLONE_NEWPID) s with
  | (some err, s) => .error ⟨-1, some err, c, s, log⟩
  | (none, s) => .ok ⟨c, ct, s, log⟩

/-- The first part of `Run`, up to the namespace mask: terminal setup, the
environment file, the container handle, the mounts and the settings.
`.error r` is an early `return -1, err`. -/
def configure (sys : Sys σ κ) (d : driver) (c : Command) (pipes : Pipes) (s : σ) :
    Except (RunResult σ) (Configured σ κ) :=
  match sys.SetTerminal c pipes s with
  | ((c, some err), s) => .error ⟨-1, some err, c, s, []⟩
  | ((c, none), s) =>
  match generateEnvConfig sys d c s with
  | ((c, some err), s) => .error ⟨-1, some err, c, s, []⟩
  | ((c, none), s) =>
  let log := [Event.CreateCt c.ID]
  match sys.CreateCt c.ID s with
  | (.error err, s) => .error ⟨-1, some err, c, s, log⟩
  | (.ok ct, s) =>
  let (s, log) := mountAll sys ct c s log
  applySettings sys ct c s log

/-- The argument vector of the in-container init program, as `Run` builds
it in `params`. -/
def initParams (sys : Sys σ κ) (d : driver) (c : Command) : List String :=
  let params := [c.InitPath, "-driver", DriverName]
  let params := if c.User ≠ "" then params ++ ["-u", c.User] else params
  let params :=
    if c.Privileged then
      let params :=
        if d.apparmor then params.set 0 (sys.Join [d.root, "lxc-start-unconfined"])
        else params
      params ++ ["-privileged"]
    else params
  let params := if c.WorkingDir ≠ "" then params ++ ["-w", c.WorkingDir] else params
  let params := params ++ ["--", c.Entrypoint]
  params ++ c.Arguments

/-- The final value of `params`: the init vector, or its shell wrapping when
the root of the host is shared. -/
def launchParams (sys : Sys σ κ) (d : driver) (c : Command) : List String :=
  let params := initParams sys d c
  if d.sharedRoot then
    let shellString := "mount --make-rslave /; exec " ++ sys.ShellQuoteArguments params
    ["unshare", "-m", "--", "/bin/sh", "-c", shellString]
  else params

/-- The lines of `Run` that resolve the program (`name`, `arg`, `aname`) and
record `c.Path` and `c.Args`, on the final value of `params`. -/
def resolvePath (sys : Sys σ κ) (params : List String) (c : Command) (s : σ) : Command :=
  let name := params.headD ""
  let arg := params.tail
  let aname :=
    match sys.LookPath name s with
    | .error _ => name
    | .ok found => found
  let c := { c with Path := aname }
  { c with Args := [name] ++ arg }

/-- The second part of `Run`: the argument vector, the path lookup, the
launch, the start callback and the wait. -/
def launch (sys : Sys σ κ) (d : driver) (k : Configured σ κ)
    (startCallback : Option (Command → σ → Command × σ)) : RunResult σ :=
  let params := launchParams sys d k.cmd
  let c := resolvePath sys params k.cmd k.world
  let aname := c.Path
  let env : List String := []
  let log := k.log ++ [Event.CtRun aname c.Args env]
  match sys.CtRun k.ct aname c.Args env k.world with
  | (.error err, s) => ⟨-1, some err, c, s, log⟩
  | (.ok pid, s) =>
    let c := { c with ContainerPid := pid }
    let (c, s) :=
      match startCallback with
      | some callback => callback c s
      | none => (c, s)
    let log := log ++ [Event.Wait]
    let (waitErr, s) := sys.Wait k.ct s
    ⟨0, waitErr, c, s, log⟩

/-- Go `(*driver).Run`. -/
def Run (sys : Sys σ κ) (d : driver) (c : Command) (pipes : Pipes)
    (startCallback : Option (Command → σ → Command × σ)) (s : σ) : RunResult σ :=
  match configure sys d c pipes s with
  | .error r => r
  | .ok k => launch sys d k startCallback

/-- The `AddMount` calls of a trace, in order. -/
def addMountCalls (log : List Event) : List (String × String) :=
  log.filterMap fun e =>
    match e with
    | .AddMount src dst => some (src, dst)
    | _ => none

/-- Whether the trace holds a launch (`Run` on the container handle). -/
def launched (log : List Event) : Bool :=
  log.any fun e =>
    match e with
    | .CtRun _ _ _ => true
    | _ => false

/-! ## A backend that keeps a record of its calls -/

/-- The system `sys` over a world that carries, beside the state of `sys`,
the record of the calls the libct session and its container handles have
received: every operation of the backend does what it does in `sys` and
appends itself, with the arguments it was called with, to the record.
Everything else acts on the state of `sys` and leaves the record alone. -/
def Sys.recording (sys : Sys σ κ) : Sys (σ × List Event) κ where
  SetTerminal c pipes w := ((sys.SetTerminal c pipes w.1).1, ((sys.SetTerminal c pipes w.1).2, w.2))
  Marshal := sys.Marshal
  Join := sys.Join
  WriteFile p data perm w := ((sys.WriteFile p data perm w.1).1, ((sys.WriteFile p data perm w.1).2, w.2))
  CreateCt id w := ((sys.CreateCt id w.1).1, ((sys.CreateCt id w.1).2, w.2 ++ [Event.CreateCt id]))
  OpenCt id w := ((sys.OpenCt id w.1).1, ((sys.OpenCt id w.1).2, w.2 ++ [Event.OpenCt id]))
  AddMount ct src dst w :=
    ((sys.AddMount ct src dst w.1).1, ((sys.AddMount ct src dst w.1).2, w.2 ++ [Event.AddMount src dst]))
  SetOption ct opt w :=
    ((sys.SetOption ct opt w.1).1, ((sys.SetOption ct opt w.1).2, w.2 ++ [Event.SetOption opt]))
  SetFsRoot ct root w :=
    ((sys.SetFsRoot ct root w.1).1, ((sys.SetFsRoot ct root w.1).2, w.2 ++ [Event.SetFsRoot root]))
  SetNsMask ct mask w :=
    ((sys.SetNsMask ct mask w.1).1, ((sys.SetNsMask ct mask w.1).2, w.2 ++ [Event.SetNsMask mask]))
  CtRun ct path argv env w :=
    ((sys.CtRun ct path argv env w.1).1,
      ((sys.CtRun ct path argv env w.1).2, w.2 ++ [Event.CtRun path argv env]))
  Wait ct w := ((sys.Wait ct w.1).1, ((sys.Wait ct w.1).2, w.2 ++ [Event.Wait]))
  State ct w := ((sys.State ct w.1).1, ((sys.State ct w.1).2, w.2 ++ [Event.State]))
  ShellQuoteArguments := sys.ShellQuoteArguments
  LookPath name w := sys.LookPath name w.1
  FindCgroupMountpoint subsystem w := sys.FindCgroupMountpoint subsystem w.1
  GetThisCgroupDir subsystem w := sys.GetThisCgroupDir subsystem w.1
  filepathJoin := sys.filepathJoin
  StatIsNotExist name w := sys.StatIsNotExist name w.1
  ReadFile name w := sys.ReadFile name w.1
  Quote := sys.Quote

/-- A start callback of `sys`, as a start callback of `sys.recording`: it
leaves the record of the backend alone. -/
def liftCallback (cb : Command → σ → Command × σ) :
    Command → σ × List Event → Command × (σ × List Event) :=
  fun c w => ((cb c w.1).1, ((cb c w.1).2, w.2))

/-- Whether an event of a trace is a call on the backend (all but the lines
written to standard output). -/
def Event.isBackendCall : Event → Bool
  | .Println _ => false
  | _ => true

/-- The calls on the backend in a trace. -/
def backendCalls (log : List Event) : List Event :=
  log.filter Event.isBackendCall

/-- The result of `Run` on `sys`, as the result on `sys.recording` started
with the record `tr`: the record has grown by the backend calls of the trace. -/
def RunResult.recorded (r : RunResult σ) (tr : List Event) : RunResult (σ × List Event) :=
  ⟨r.code, r.err, r.cmd, (r.world, tr ++ backendCalls r.log), r.log⟩

/-- The configured state of `Run` on `sys`, as the state on `sys.recording`
started with the record `tr`. -/
def Configured.recorded (k : Configured σ κ) (tr : List Event) :
    Configured (σ × List Event) κ :=
  ⟨k.cmd, k.ct, (k.world, tr ++ backendCalls k.log), k.log⟩

/-! ## `GetPidsForContainer` and `Info` -/

/-- The loop of `GetPidsForContainer` over the lines of the task file:
the pids collected and the returned error. -/
def pidLoop (quote : String → String) : List String → List Int → List Int × Option GoError
  | [], pids => (pids, none)
  | p :: rest, pids =>
    if p.length = 0 then pidLoop quote rest pids
    else
      match Atoi p with
      | (_, some err) =>
        (pids, some ⟨"Invalid pid '" ++ p ++ "': " ++ err.Error quote⟩)
      | (pid, none) => pidLoop quote rest (pids ++ [pid])

/-- The pid-parsing step of `GetPidsForContainer` on the content of the task
file. -/
def parsePids (quote : String → String) (output : String) : List Int × Option GoError :=
  pidLoop quote (Split output '\n') []

/-- Go `(*driver).GetPidsForContainer`. -/
def GetPidsForContainer (sys : Sys σ κ) (id : String) (s : σ) : List Int × Option GoError :=
  let pids : List Int := []
  -- cpu is chosen because it is the only non optional subsystem in cgroups
  let subsystem := "cpu"
  match sys.FindCgroupMountpoint subsystem s with
  | .error err => (pids, some err)
  | .ok cgroupRoot =>
  match sys.GetThisCgroupDir subsystem s with
  | .error err => (pids, some err)
  | .ok cgroupDir =>
  let filename := sys.filepathJoin [cgroupRoot, cgroupDir, id, "tasks"]
  let filename :=
    if sys.StatIsNotExist filename s then sys.filepathJoin [cgroupRoot, cgroupDir, id, "tasks"]
    else filename
  match sys.ReadFile filename s with
  | .error err => (pids, some err)
  | .ok output => parsePids sys.Quote output

/-- Go `(*driver).Info`: the snapshot, the new world state and the backend
calls made. -/
def Info (sys : Sys σ κ) (d : driver) (id : String) (s : σ) : info × σ × List Event :=
  let state := CT_ERROR
  match sys.OpenCt id s with
  | (.error _, s) => (⟨id, d, state⟩, s, [Event.OpenCt id])
  | (.ok ct, s) =>
    let ((state, _), s) := sys.State ct s
    (⟨id, d, state⟩, s, [Event.OpenCt id, Event.State])

/-! ## The registered init function -/

variable {π : Type}

/-- Go `execdriver.InitArgs`. -/
structure InitArgs where
  User : String
  Gateway : String
  Ip : String
  WorkDir : String
  Privileged : Bool
  Env : List String
  Args : List String
  Mtu : Int
  Driver : String
  deriving DecidableEq, Repr

/-- The six setup steps of the init function. -/
inductive SetupStep where
  | setupEnv
  | setupHostname
  | setupNetworking
  | setupCapabilities
  | setupWorkingDirectory
  | changeUser
  deriving DecidableEq, Repr

/-- The order in which the init function runs its setup steps. -/
def SetupStep.order : List SetupStep :=
  [.setupEnv, .setupHostname, .setupNetworking, .setupCapabilities,
   .setupWorkingDirectory, .changeUser]

/-- What `syscall.Exec` does: it replaces the process image, or returns. -/
inductive ExecResult where
  | replaced
  | returned (err : Option GoError)
  deriving DecidableEq, Repr

/-- What the init function calls, over the state `π` of the process: the
setup steps as fallible actions, the path lookup, the environment and the
process-image replacement. -/
structure InitSys (π : Type) where
  step : SetupStep → InitArgs → π → Option GoError × π
  LookPath : String → π → Except GoError String
  Environ : π → List String
  Exec : String → List String → List String → π → ExecResult

/-- What the init function does, in order. -/
inductive InitEvent where
  | step (s : SetupStep)
  | LookPath (file : String)
  | Printf (line : String)
  | Exit (code : Int)
  | Exec (path : String) (argv env : List String)
  deriving DecidableEq, Repr

/-- How a call of the init function ends. -/
inductive InitOutcome where
  | returned (err : GoError)
  | exited (code : Int)
  | replaced
  | panicked (msg : String)
  deriving DecidableEq, Repr

/-- The tail of the init function: lookup of `args.Args[0]` and replacement
of the process image. -/
def initExec (sys : InitSys π) (args : InitArgs) (p : π) (log : List InitEvent) :
    InitOutcome × List InitEvent :=
  match args.Args with
  | [] => (.panicked "index out of range", log)
  | arg0 :: _ =>
    let log := log ++ [InitEvent.LookPath arg0]
    match sys.LookPath arg0 p with
    | .error _ =>
      (.exited 127, log ++ [InitEvent.Printf ("Unable to locate " ++ arg0), InitEvent.Exit 127])
    | .ok path =>
      let log := log ++ [InitEvent.Exec path args.Args (sys.Environ p)]
      match sys.Exec path args.Args (sys.Environ p) p with
      | .returned (some err) =>
        (.returned ⟨"dockerinit unable to execute " ++ path ++ " - " ++ err.text⟩, log)
      | .returned none => (.panicked "Unreachable", log)
      | .replaced => (.replaced, log)

/-- The function `init` registers for the driver. -/
def initFunc (sys : InitSys π) (args : InitArgs) (p : π) : InitOutcome × List InitEvent :=
  let log := [InitEvent.step .setupEnv]
  match sys.step .setupEnv args p with
  | (some err, _) => (.returned err, log)
  | (none, p) =>
  let log := log ++ [InitEvent.step .setupHostname]
  match sys.step .setupHostname args p with
  | (some err, _) => (.returned err, log)
  | (none, p) =>
  let log := log ++ [InitEvent.step .setupNetworking]
  match sys.step .setupNetworking args p with
  | (some err, _) => (.returned err, log)
  | (none, p) =>
  let log := log ++ [InitEvent.step .setupCapabilities]
  match sys.step .setupCapabilities args p with
  | (some err, _) => (.returned err, log)
  | (none, p) =>
  let log := log ++ [InitEvent.step .setupWorkingDirectory]
  match sys.step .setupWorkingDirectory args p with
  | (some err, _) => (.returned err, log)
  | (none, p) =>
  let log := log ++ [InitEvent.step .changeUser]
  match sys.step .changeUser args p with
  | (some err, _) => (.returned err, log)
  | (none, p) => initExec sys args p log

/-- The setup steps of a list run one after the other until one fails:
the steps run, the first error and the state reached. -/
def runSteps (sys : InitSys π) (args : InitArgs) :
    List SetupStep → π → List SetupStep × Option GoError × π
  | [], p => ([], none, p)
  | st :: rest, p =>
    match sys.step st args p with
    | (some err, p) => ([st], some err, p)
    | (none, p) =>
      let (ran, err, p) := runSteps sys args rest p
      (st :: ran, err, p)

/-- Whether an event of the init function is the path lookup or the
replacement of the process image. -/
def InitEvent.isLookupOrExec : InitEvent → Bool
  | .LookPath _ => true
  | .Exec _ _ _ => true
  | _ => false

/-! ## A concrete system, to run the definitions on -/

/-- A system over a trivial world in which every call succeeds: terminal
setup allocates `/dev/pts/3` for an interactive command, paths are joined
with `/`, the launch returns pid 42, and the path lookup finds every
non-empty name in `/usr/bin`. -/
def okSys : Sys Unit Unit where
  SetTerminal c _ s := ((if c.Tty then { c with Console := "/dev/pts/3" } else c, none), s)
  Marshal env := .ok ("[" ++ ",".intercalate env ++ "]")
  Join elems := "/".intercalate elems
  WriteFile _ _ _ s := (none, s)
  CreateCt _ s := (.ok (), s)
  OpenCt _ s := (.ok (), s)
  AddMount _ _ _ s := (none, s)
  SetOption _ _ s := (none, s)
  SetFsRoot _ _ s := (none, s)
  SetNsMask _ _ s := (none, s)
  CtRun _ _ _ _ s := (.ok 42, s)
  Wait _ s := (none, s)
  State _ s := ((CT_RUNNING, none), s)
  ShellQuoteArguments args := " ".intercalate args
  LookPath name _ :=
    if name = "" then .error ⟨"not found"⟩
    else if name.data.contains '/' then .ok name
    else .ok ("/usr/bin/" ++ name)
  FindCgroupMountpoint _ _ := .ok "/sys/fs/cgroup/cpu"
  GetThisCgroupDir _ _ := .ok "/"
  filepathJoin elems := "/".intercalate elems
  StatIsNotExist _ _ := false
  ReadFile _ _ := .ok "123\n456\n"
  Quote t := "\"" ++ t ++ "\""

/-- The system `okSys` with a backend on which every mount addition fails. -/
def mountFailSys : Sys Unit Unit :=
  { okSys with AddMount := fun _ _ _ s => (some ⟨"libct: mount failed"⟩, s) }

/-- The system `okSys` with a session that knows no container. -/
def noCtSys : Sys Unit Unit :=
  { okSys with OpenCt := fun _ s => (.error ⟨"libct: no such container"⟩, s) }

/-- A driver with apparmor integration, on a host whose root is not shared. -/
def demoDriver : driver := ⟨"/var/lib/docker", true, false⟩

/-- An interactive, privileged command with one mount. -/
def demoCmd : Command where
  Path := ""
  Args := []
  Env := ["HOME=/", "TERM=xterm"]
  ID := "c0ffee"
  Privileged := true
  User := "www"
  Rootfs := "/var/lib/docker/rootfs/c0ffee"
  InitPath := "/usr/bin/dockerinit"
  Entrypoint := "/bin/sh"
  Arguments := ["-c", "true"]
  WorkingDir := "/srv"
  Tty := true
  Mounts := [⟨"/data", "/mnt", true, false⟩]
  Console := ""
  ContainerPid := 0

/-- A command whose `InitPath` is empty, not privileged. -/
def noInitPathCmd : Command :=
  { demoCmd with InitPath := "", Privileged := false }

/-- The state in which `configure` leaves the run of `demoCmd` on `okSys`. -/
def demoConfigured : Configured Unit Unit where
  cmd :=
    { demoCmd with
      Console := "/dev/pts/3"
      Mounts := [⟨"/data", "/mnt", true, false⟩,
        ⟨"/var/lib/docker/containers/c0ffee/config.env", "/.dockerenv", false, true⟩] }
  ct := ()
  world := ()
  log :=
    [.CreateCt "c0ffee",
     .Println ["%s %s", "/data", "/mnt"], .AddMount "/data" "/mnt",
     .Println ["%s %s", "/var/lib/docker/containers/c0ffee/config.env", "/.dockerenv"],
     .AddMount "/var/lib/docker/containers/c0ffee/config.env" "/.dockerenv",
     .Println ["%s", "/dev/pts/3"], .AddMount "/dev/pts/3" "/dev/console",
     .SetOption 1, .SetFsRoot "/var/lib/docker/rootfs/c0ffee",
     .SetFsRoot "/var/lib/docker/rootfs/c0ffee", .SetNsMask 0x20020000]

/-- No caller-supplied streams. -/
def demoPipes : Pipes := ⟨none, none, none⟩

/-- An init system whose setup steps succeed except the one named, and
whose lookup and image replacement succeed. -/
def demoInit (failing : Option SetupStep) : InitSys Unit where
  step st _ p := (if some st = failing then some ⟨"step failed"⟩ else none, p)
  LookPath name _ := .ok ("/bin/" ++ name)
  Environ _ := ["HOME=/"]
  Exec _ _ _ _ := .replaced

/-- Init arguments that start `/bin/sh`. -/
def demoInitArgs : InitArgs := ⟨"", "", "", "", false, [], ["sh"], 1500, "libct"⟩


/-! ## `strings.Split` -/

theorem splitChars_ne_nil (sep : Char) (s : List Char) : splitChars sep s ≠ [] := by
  cases s with
  | nil => simp [splitChars]
  | cons c cs =>
    simp only [splitChars]
    split_ifs
    · simp
    · split <;> simp

/-- No field of a split holds the separator. -/
theorem splitChars_sep_free (sep : Char) (s : List Char) :
    ∀ f ∈ splitChars sep s, sep ∉ f := by
  induction s with
  | nil => simp [splitChars]
  | cons c cs ih =>
    simp only [splitChars]
    split_ifs with hc
    · intro f hf
      rcases List.mem_cons.mp hf with rfl | hf
      · simp
      · exact ih f hf
    · split
      · simp [Ne.symm hc]
      · rename_i f fs heq
        rw [heq] at ih
        intro g hg
        rcases List.mem_cons.mp hg with rfl | hg
        · have := ih f (List.mem_cons_self _ _)
          simp [Ne.symm hc, this]
        · exact ih g (List.mem_cons_of_mem _ hg)

/-- Joining the fields of a split with the separator gives the input back. -/
theorem splitChars_intercalate (sep : Char) (s : List Char) :
    List.intercalate [sep] (splitChars sep s) = s := by
  induction s with
  | nil => simp [splitChars, List.intercalate]
  | cons c cs ih =>
    simp only [splitChars]
    split_ifs with hc
    · subst hc
      rcases hs : splitChars c cs with _ | ⟨f, fs⟩
      · exact absurd hs (splitChars_ne_nil c cs)
      · rw [hs] at ih
        simp only [List.intercalate, List.intersperse, List.flatten] at ih ⊢
        simp [ih]
    · rcases hs : splitChars sep cs with _ | ⟨f, fs⟩
      · exact absurd hs (splitChars_ne_nil sep cs)
      · rw [hs] at ih
        simp only
        cases fs with
        | nil =>
          simp only [List.intercalate, List.intersperse, List.flatten] at ih ⊢
          simp [← ih]
        | cons g gs =>
          simp only [List.intercalate, List.intersperse, List.flatten] at ih ⊢
          simp [← ih]

/-! ## Lemmas on the trace of `Run` -/

theorem addMountCalls_append (l₁ l₂ : List Event) :
    addMountCalls (l₁ ++ l₂) = addMountCalls l₁ ++ addMountCalls l₂ := by
  simp [addMountCalls, List.filterMap_append]

theorem launched_append (l₁ l₂ : List Event) :
    launched (l₁ ++ l₂) = (launched l₁ || launched l₂) := by
  simp [launched, List.any_append]

theorem replayMounts_calls (sys : Sys σ κ) (ct : κ) (ms : List Mount) (s : σ) (log : List Event) :
    addMountCalls (replayMounts sys ct ms s log).2 =
      addMountCalls log ++ ms.map (fun m => (m.Source, m.Destination)) := by
  induction ms generalizing s log with
  | nil => simp [replayMounts]
  | cons m ms ih =>
    simp only [replayMounts]
    rw [ih]
    simp [addMountCalls_append, addMountCalls]

theorem replayMounts_launched (sys : Sys σ κ) (ct : κ) (ms : List Mount) (s : σ)
    (log : List Event) :
    launched (replayMounts sys ct ms s log).2 = launched log := by
  induction ms generalizing s log with
  | nil => simp [replayMounts]
  | cons m ms ih =>
    simp only [replayMounts]
    rw [ih]
    simp [launched_append, launched]

theorem mountAll_calls (sys : Sys σ κ) (ct : κ) (c : Command) (s : σ) (log : List Event) :
    addMountCalls (mountAll sys ct c s log).2 =
      addMountCalls log ++ c.Mounts.map (fun m => (m.Source, m.Destination))
        ++ (if c.Tty then [(c.Console, "/dev/console")] else []) := by
  have h := replayMounts_calls sys ct c.Mounts s log
  have h₁ : addMountCalls [Event.Println ["%s", c.Console]] = [] := rfl
  have h₂ : addMountCalls [Event.AddMount c.Console "/dev/console"]
      = [(c.Console, "/dev/console")] := rfl
  unfold mountAll
  by_cases hT : c.Tty = true
  · simp only [hT, if_true, addMountCalls_append, h, h₁, h₂, List.append_nil]
  · simp [hT, h]

theorem mountAll_launched (sys : Sys σ κ) (ct : κ) (c : Command) (s : σ) (log : List Event) :
    launched (mountAll sys ct c s log).2 = launched log := by
  have h := replayMounts_launched sys ct c.Mounts s log
  have h₁ : launched [Event.Println ["%s", c.Console]] = false := rfl
  have h₂ : launched [Event.AddMount c.Console "/dev/console"] = false := rfl
  unfold mountAll
  by_cases hT : c.Tty = true
  · simp only [hT, if_true, launched_append, h, h₁, h₂, Bool.or_false]
  · simp [hT, h]

theorem applySettings_error (sys : Sys σ κ) (ct : κ) (c : Command) (s : σ) (log : List Event)
    (r : RunResult σ) (h : applySettings sys ct c s log = .error r) :
    r.code = -1 ∧ r.err ≠ none ∧ r.cmd = c ∧
      ∃ extra, r.log = log ++ extra ∧ addMountCalls extra = [] ∧ launched extra = false := by
  unfold applySettings at h
  repeat' split at h
  all_goals cases h
  all_goals refine ⟨rfl, by simp, rfl, ?_⟩
  all_goals simp only [List.append_assoc]
  all_goals exact ⟨_, rfl, by simp [addMountCalls], by simp [launched]⟩

theorem applySettings_ok (sys : Sys σ κ) (ct : κ) (c : Command) (s : σ) (log : List Event)
    (k : Configured σ κ) (h : applySettings sys ct c s log = .ok k) :
    k.cmd = c ∧ k.ct = ct ∧
      ∃ extra, k.log = log ++ extra ∧ addMountCalls extra = [] ∧ launched extra = false := by
  unfold applySettings at h
  repeat' split at h
  all_goals cases h
  all_goals refine ⟨rfl, rfl, ?_⟩
  all_goals simp only [List.append_assoc]
  all_goals exact ⟨_, rfl, by simp [addMountCalls], by simp [launched]⟩

theorem launch_calls (sys : Sys σ κ) (d : driver) (k : Configured σ κ)
    (cb : Option (Command → σ → Command × σ)) :
    addMountCalls (launch sys d k cb).log = addMountCalls k.log := by
  simp only [launch]
  split <;> simp [addMountCalls_append, addMountCalls]

/-! ## The trace against what the backend receives -/

theorem backendCalls_append (l₁ l₂ : List Event) :
    backendCalls (l₁ ++ l₂) = backendCalls l₁ ++ backendCalls l₂ := by
  simp [backendCalls]

theorem addMountCalls_backendCalls (log : List Event) :
    addMountCalls (backendCalls log) = addMountCalls log := by
  induction log with
  | nil => rfl
  | cons e log ih =>
    have h := addMountCalls_append [e] log
    have h' := addMountCalls_append (backendCalls [e]) (backendCalls log)
    have hb := backendCalls_append [e] log
    simp only [List.singleton_append] at h hb
    rw [hb, h', h, ih]
    cases e <;> rfl

theorem replayMounts_recording (sys : Sys σ κ) (ct : κ) (ms : List Mount) (s : σ)
    (tr log : List Event) :
    replayMounts sys.recording ct ms (s, tr ++ backendCalls log) log =
      (((replayMounts sys ct ms s log).1, tr ++ backendCalls (replayMounts sys ct ms s log).2),
        (replayMounts sys ct ms s log).2) := by
  induction ms generalizing s log with
  | nil => rfl
  | cons m ms ih =>
    have hb : tr ++ backendCalls log ++ [Event.AddMount m.Source m.Destination] =
        tr ++ backendCalls (log ++ [Event.Println ["%s %s", m.Source, m.Destination]]
          ++ [Event.AddMount m.Source m.Destination]) := by
      simp [backendCalls_append, backendCalls, Event.isBackendCall]
    simp only [replayMounts, Sys.recording]
    rw [hb]
    exact ih _ _

theorem mountAll_recording (sys : Sys σ κ) (ct : κ) (c : Command) (s : σ)
    (tr log : List Event) :
    mountAll sys.recording ct c (s, tr ++ backendCalls log) log =
      (((mountAll sys ct c s log).1, tr ++ backendCalls (mountAll sys ct c s log).2),
        (mountAll sys ct c s log).2) := by
  simp only [mountAll, replayMounts_recording]
  by_cases hT : c.Tty = true
  · simp only [hT, if_true, Sys.recording]
    simp [backendCalls_append, backendCalls, Event.isBackendCall]
  · simp only [hT, if_false]
    rfl

theorem applySettings_recording (sys : Sys σ κ) (ct : κ) (c : Command) (s : σ)
    (tr log : List Event) :
    applySettings sys.recording ct c (s, tr ++ backendCalls log) log =
      match applySettings sys ct c s log with
      | .error r => .error (r.recorded tr)
      | .ok k => .ok (k.recorded tr) := by
  simp only [applySettings, Sys.recording]
  rcases h1 : sys.SetOption ct 1 s with ⟨_ | e1, s1⟩ <;> simp only
  · rcases h2 : sys.SetFsRoot ct c.Rootfs s1 with ⟨_ | e2, s2⟩ <;> simp only
    · rcases h3 : sys.SetFsRoot ct c.Rootfs s2 with ⟨_ | e3, s3⟩ <;> simp only
      · rcases h4 : sys.SetNsMask ct (CLONE_NEWNS ||| CLONE_NEWPID) s3 with ⟨_ | e4, s4⟩ <;>
          simp [Configured.recorded, RunResult.recorded, backendCalls_append, backendCalls,
            Event.isBackendCall]
      · simp [RunResult.recorded, backendCalls_append, backendCalls, Event.isBackendCall]
    · simp [RunResult.recorded, backendCalls_append, backendCalls, Event.isBackendCall]
  · simp [RunResult.recorded, backendCalls_append, backendCalls, Event.isBackendCall]

theorem generateEnvConfig_recording (sys : Sys σ κ) (d : driver) (c : Command) (s : σ)
    (tr : List Event) :
    generateEnvConfig sys.recording d c (s, tr) =
      ((generateEnvConfig sys d c s).1, ((generateEnvConfig sys d c s).2, tr)) := by
  simp only [generateEnvConfig]
  have hm : sys.recording.Marshal = sys.Marshal := rfl
  have hj : sys.recording.Join = sys.Join := rfl
  rw [hm, hj]
  cases sys.Marshal c.Env with
  | error e => rfl
  | ok data => rfl

theorem configure_recording (sys : Sys σ κ) (d : driver) (c : Command) (pipes : Pipes) (s : σ)
    (tr : List Event) :
    configure sys.recording d c pipes (s, tr) =
      match configure sys d c pipes s with
      | .error r => .error (r.recorded tr)
      | .ok k => .ok (k.recorded tr) := by
  simp only [configure]
  have hst : (sys.recording.SetTerminal c pipes (s, tr)) =
      ((sys.SetTerminal c pipes s).1, ((sys.SetTerminal c pipes s).2, tr)) := rfl
  rw [hst]
  rcases sys.SetTerminal c pipes s with ⟨⟨c₁, _ | e₁⟩, s₁⟩ <;> simp only
  · rw [generateEnvConfig_recording]
    rcases generateEnvConfig sys d c₁ s₁ with ⟨⟨c₂, _ | e₂⟩, s₂⟩ <;> simp only
    · have hct : (sys.recording.CreateCt c₂.ID (s₂, tr)) =
          ((sys.CreateCt c₂.ID s₂).1,
            ((sys.CreateCt c₂.ID s₂).2, tr ++ backendCalls [Event.CreateCt c₂.ID])) := rfl
      rw [hct]
      rcases sys.CreateCt c₂.ID s₂ with ⟨e₃ | ct, s₃⟩ <;> simp only
      · rfl
      · rw [mountAll_recording]
        exact applySettings_recording sys ct c₂ _ tr _
    · simp [RunResult.recorded, backendCalls]
  · simp [RunResult.recorded, backendCalls]

theorem launch_recording (sys : Sys σ κ) (d : driver) (k : Configured σ κ)
    (cb : Option (Command → σ → Command × σ)) (tr : List Event) :
    launch sys.recording d (k.recorded tr) (cb.map liftCallback) =
      (launch sys d k cb).recorded tr := by
  have hp : launchParams sys.recording d k.cmd = launchParams sys d k.cmd := rfl
  have hr : ∀ params, resolvePath sys.recording params k.cmd (k.world, tr ++ backendCalls k.log)
      = resolvePath sys params k.cmd k.world := fun _ => rfl
  simp only [launch, Configured.recorded, hp, hr]
  generalize resolvePath sys (launchParams sys d k.cmd) k.cmd k.world = c
  have hrun : sys.recording.CtRun k.ct c.Path c.Args [] (k.world, tr ++ backendCalls k.log) =
      ((sys.CtRun k.ct c.Path c.Args [] k.world).1,
        ((sys.CtRun k.ct c.Path c.Args [] k.world).2,
          tr ++ backendCalls (k.log ++ [Event.CtRun c.Path c.Args []]))) := by
    simp [Sys.recording, backendCalls_append, backendCalls, Event.isBackendCall]
  rw [hrun]
  rcases sys.CtRun k.ct c.Path c.Args [] k.world with ⟨e | pid, s₁⟩ <;> simp only
  · rfl
  · cases cb with
    | none =>
      simp [RunResult.recorded, Sys.recording, backendCalls_append, backendCalls,
        Event.isBackendCall]
    | some callback =>
      simp [RunResult.recorded, Sys.recording, liftCallback, backendCalls_append, backendCalls,
        Event.isBackendCall]

/-- The record of a backend that records its calls is the trace of `Run`:
run on `sys.recording`, `Run` returns what it returns on `sys`, and the
record has grown by exactly the backend calls of the trace, in order. -/
theorem Run_recording (sys : Sys σ κ) (d : driver) (c : Command) (pipes : Pipes)
    (cb : Option (Command → σ → Command × σ)) (s : σ) (tr : List Event) :
    Run sys.recording d c pipes (cb.map liftCallback) (s, tr) =
      (Run sys d c pipes cb s).recorded tr := by
  simp only [Run, configure_recording]
  cases configure sys d c pipes s with
  | error r => rfl
  | ok k => exact launch_recording sys d k cb tr

/-- The mount additions in the trace of a call of `Run` that got past
`CreateCt`. -/
theorem run_log_addMountCalls (sys : Sys σ κ) (d : driver) (c c₁ : Command) (pipes : Pipes)
    (cb : Option (Command → σ → Command × σ)) (s s₁ s₂ s₃ : σ) (data : String) (ct : κ)
    (hT : sys.SetTerminal c pipes s = ((c₁, none), s₁))
    (hM : sys.Marshal c₁.Env = .ok data)
    (hW : sys.WriteFile (sys.Join [d.root, "containers", c₁.ID, "config.env"]) data 0o600 s₁
      = (none, s₂))
    (hC : sys.CreateCt c₁.ID s₂ = (.ok ct, s₃)) :
    addMountCalls (Run sys d c pipes cb s).log =
      c₁.Mounts.map (fun m => (m.Source, m.Destination))
        ++ [(sys.Join [d.root, "containers", c₁.ID, "config.env"], "/.dockerenv")]
        ++ (if c₁.Tty then [(c₁.Console, "/dev/console")] else []) := by
  simp only [Run, configure, hT, generateEnvConfig, hM, hW, hC]
  generalize hc₂ : ({ c₁ with Mounts := c₁.Mounts ++
    [⟨sys.Join [d.root, "containers", c₁.ID, "config.env"], "/.dockerenv", false, true⟩] }
      : Command) = c₂
  have hcalls := mountAll_calls sys ct c₂ s₃ [Event.CreateCt c₁.ID]
  have hexp : addMountCalls (mountAll sys ct c₂ s₃ [Event.CreateCt c₁.ID]).2 =
      c₁.Mounts.map (fun m => (m.Source, m.Destination))
        ++ [(sys.Join [d.root, "containers", c₁.ID, "config.env"], "/.dockerenv")]
        ++ (if c₁.Tty then [(c₁.Console, "/dev/console")] else []) := by
    rw [hcalls, ← hc₂]
    simp [addMountCalls]
  cases hA : applySettings sys ct c₂ (mountAll sys ct c₂ s₃ [Event.CreateCt c₁.ID]).1
      (mountAll sys ct c₂ s₃ [Event.CreateCt c₁.ID]).2 with
  | error r =>
    obtain ⟨-, -, -, extra, hlog, hno, -⟩ := applySettings_error _ _ _ _ _ _ hA
    simp only [hlog, addMountCalls_append, hno, List.append_nil, hexp]
  | ok k =>
    obtain ⟨-, -, extra, hlog, hno, -⟩ := applySettings_ok _ _ _ _ _ _ hA
    simp only [launch_calls, hlog, addMountCalls_append, hno, List.append_nil, hexp]

/-- C1: on every call of `Run` that reaches the mount-replay step (terminal
setup, the environment file and `CreateCt` succeeded), the `AddMount` calls
the backend receives, as the backend itself records them with their
arguments, are, in this order and nothing else: the mounts of the descriptor
as `(Source, Destination)` pairs in their order, the mount of the generated
environment file on `/.dockerenv`, and, exactly when `Tty` is set, the mount
of `Console` on `/dev/console`.  The descriptor `c₁` is the one terminal setup
hands back. -/
theorem run_addMountCalls (sys : Sys σ κ) (d : driver) (c c₁ : Command) (pipes : Pipes)
    (cb : Option (Command → σ → Command × σ)) (s s₁ s₂ s₃ : σ) (data : String) (ct : κ)
    (hT : sys.SetTerminal c pipes s = ((c₁, none), s₁))
    (hM : sys.Marshal c₁.Env = .ok data)
    (hW : sys.WriteFile (sys.Join [d.root, "containers", c₁.ID, "config.env"]) data 0o600 s₁
      = (none, s₂))
    (hC : sys.CreateCt c₁.ID s₂ = (.ok ct, s₃)) :
    addMountCalls (Run sys.recording d c pipes (cb.map liftCallback) (s, [])).world.2 =
      c₁.Mounts.map (fun m => (m.Source, m.Destination))
        ++ [(sys.Join [d.root, "containers", c₁.ID, "config.env"], "/.dockerenv")]
        ++ (if c₁.Tty then [(c₁.Console, "/dev/console")] else []) := by
  rw [Run_recording]
  simp only [RunResult.recorded, List.nil_append, addMountCalls_backendCalls]
  exact run_log_addMountCalls sys d c c₁ pipes cb s s₁ s₂ s₃ data ct hT hM hW hC

/-- C1, on a concrete run: an interactive command with one mount, on a
backend that records its calls. -/
theorem run_addMountCalls_witness :
    addMountCalls (Run okSys.recording demoDriver demoCmd demoPipes none ((), [])).world.2 =
      [("/data", "/mnt"), ("/var/lib/docker/containers/c0ffee/config.env", "/.dockerenv"),
       ("/dev/pts/3", "/dev/console")] :=
  (run_addMountCalls okSys demoDriver demoCmd { demoCmd with Console := "/dev/pts/3" }
    demoPipes none () () () () "[HOME=/,TERM=xterm]" () rfl rfl rfl rfl).trans (by decide)

/-! ## The argument vector and the resolved path -/

theorem initParams_eq (sys : Sys σ κ) (d : driver) (c : Command) :
    initParams sys d c =
      [if c.Privileged ∧ d.apparmor then sys.Join [d.root, "lxc-start-unconfined"]
        else c.InitPath, "-driver", "libct"]
        ++ (if c.User ≠ "" then ["-u", c.User] else [])
        ++ (if c.Privileged then ["-privileged"] else [])
        ++ (if c.WorkingDir ≠ "" then ["-w", c.WorkingDir] else [])
        ++ ["--", c.Entrypoint] ++ c.Arguments := by
  unfold initParams
  by_cases hU : c.User = "" <;> by_cases hP : c.Privileged = true <;>
    by_cases hA : d.apparmor = true <;> by_cases hW : c.WorkingDir = "" <;>
    simp [hU, hP, hA, hW, DriverName]

theorem launchParams_ne_nil (sys : Sys σ κ) (d : driver) (c : Command) :
    launchParams sys d c ≠ [] := by
  unfold launchParams
  by_cases hS : d.sharedRoot = true
  · simp [hS]
  · simp [hS, initParams_eq]

theorem head_cons_tail (l : List String) (h : l ≠ []) : [l.headD ""] ++ l.tail = l := by
  cases l with
  | nil => exact absurd rfl h
  | cons a t => rfl

theorem resolvePath_args (sys : Sys σ κ) (d : driver) (c : Command) (s : σ) :
    (resolvePath sys (launchParams sys d c) c s).Args = launchParams sys d c := by
  simp only [resolvePath]
  exact head_cons_tail _ (launchParams_ne_nil sys d c)

theorem launch_event (sys : Sys σ κ) (d : driver) (k : Configured σ κ)
    (cb : Option (Command → σ → Command × σ)) :
    Event.CtRun (resolvePath sys (launchParams sys d k.cmd) k.cmd k.world).Path
      (launchParams sys d k.cmd) [] ∈ (launch sys d k cb).log := by
  have h := resolvePath_args sys d k.cmd k.world
  simp only [launch, h]
  split <;> simp

/-- C3: the init argument vector `Run` builds is
`[arg0, "-driver", "libct"]`, then `["-u", User]` for a non-empty `User`,
`["-privileged"]` for a privileged command, `["-w", WorkingDir]` for a
non-empty `WorkingDir`, then `["--", Entrypoint]` and `Arguments`; `arg0` is
the unconfined launcher under the driver root for a privileged command with
apparmor, and `InitPath` otherwise.  `Run` launches this vector when the root
of the host is not shared and its shell quoting when it is; and for a
privileged command with apparmor, `-privileged` stands between the launcher
and the `--` separator. -/
theorem run_init_argument_vector (sys : Sys σ κ) (d : driver) (c : Command) :
    initParams sys d c =
      [if c.Privileged ∧ d.apparmor then sys.Join [d.root, "lxc-start-unconfined"]
        else c.InitPath, "-driver", "libct"]
        ++ (if c.User ≠ "" then ["-u", c.User] else [])
        ++ (if c.Privileged then ["-privileged"] else [])
        ++ (if c.WorkingDir ≠ "" then ["-w", c.WorkingDir] else [])
        ++ ["--", c.Entrypoint] ++ c.Arguments ∧
    launchParams sys d c =
      (if d.sharedRoot then
        ["unshare", "-m", "--", "/bin/sh", "-c",
          "mount --make-rslave /; exec " ++ sys.ShellQuoteArguments (initParams sys d c)]
      else initParams sys d c) ∧
    (c.Privileged = true → d.apparmor = true →
      ∃ flags, "-privileged" ∈ flags ∧
        initParams sys d c = sys.Join [d.root, "lxc-start-unconfined"] :: flags
          ++ ["--", c.Entrypoint] ++ c.Arguments) ∧
    (∀ pipes cb s k, configure sys d c pipes s = .ok k →
      ∃ aname, Event.CtRun aname (launchParams sys d k.cmd) [] ∈ (Run sys d c pipes cb s).log) := by
  refine ⟨initParams_eq sys d c, rfl, ?_, ?_⟩
  · intro hP hA
    refine ⟨["-driver", "libct"] ++ (if c.User ≠ "" then ["-u", c.User] else [])
        ++ ["-privileged"] ++ (if c.WorkingDir ≠ "" then ["-w", c.WorkingDir] else []), ?_, ?_⟩
    · simp
    · rw [initParams_eq]
      simp [hP, hA]
  · intro pipes cb s k hk
    have h := launch_event sys d k cb
    exact ⟨_, by simpa only [Run, hk] using h⟩

/-- C3, on a concrete run: a privileged command under apparmor. -/
theorem run_init_argument_vector_witness :
    (∃ flags, "-privileged" ∈ flags ∧
      initParams okSys demoDriver demoCmd = "/var/lib/docker/lxc-start-unconfined" :: flags
        ++ ["--", "/bin/sh"] ++ ["-c", "true"]) ∧
    ∃ aname, Event.CtRun aname
      ["/var/lib/docker/lxc-start-unconfined", "-driver", "libct", "-u", "www", "-privileged",
        "-w", "/srv", "--", "/bin/sh", "-c", "true"] []
        ∈ (Run okSys demoDriver demoCmd demoPipes none ()).log :=
  ⟨(run_init_argument_vector okSys demoDriver demoCmd).2.2.1 rfl rfl,
   (run_init_argument_vector okSys demoDriver demoCmd).2.2.2 demoPipes none ()
     _ rfl⟩

/-- C4 fails as stated: for a command with an empty `InitPath` (not
privileged, root of the host not shared) every configuration call succeeds,
the program name in position zero is empty, its lookup fails, the launch
happens, and the path `Run` records on the descriptor is empty. -/
theorem run_records_empty_path :
    (Run okSys demoDriver noInitPathCmd demoPipes none ()).err = none ∧
    launched (Run okSys demoDriver noInitPathCmd demoPipes none ()).log = true ∧
    (Run okSys demoDriver noInitPathCmd demoPipes none ()).cmd.Args.head? = some "" ∧
    okSys.LookPath "" () = .error ⟨"not found"⟩ ∧
    (Run okSys demoDriver noInitPathCmd demoPipes none ()).cmd.Path = "" :=
  ⟨by decide, by decide, by decide, rfl, by decide⟩

/-- C4, amended: once `Run` has configured the handle, the program name is
position zero of the final argument vector; the path handed to the launch,
and left on the descriptor as `c.Path` (no start callback changing it
afterwards), is the lookup result when the lookup of the name succeeds and
the name itself when it fails; it is non-empty whenever the name is non-empty
and a successful lookup returns a non-empty path. -/
theorem run_records_path (sys : Sys σ κ) (d : driver) (c : Command) (pipes : Pipes) (s : σ)
    (k : Configured σ κ) (hk : configure sys d c pipes s = .ok k) :
    ∃ name recorded,
      (launchParams sys d k.cmd).head? = some name ∧
      (Run sys d c pipes none s).cmd.Args.head? = some name ∧
      (Run sys d c pipes none s).cmd.Path = recorded ∧
      (∀ cb, Event.CtRun recorded (launchParams sys d k.cmd) [] ∈ (Run sys d c pipes cb s).log) ∧
      (∀ found, sys.LookPath name k.world = .ok found → recorded = found) ∧
      (∀ e, sys.LookPath name k.world = .error e → recorded = name) ∧
      (name ≠ "" → (∀ found, sys.LookPath name k.world = .ok found → found ≠ "") →
        recorded ≠ "") := by
  have hne := launchParams_ne_nil sys d k.cmd
  have hargs := resolvePath_args sys d k.cmd k.world
  obtain ⟨name, rest, hp⟩ : ∃ name rest, launchParams sys d k.cmd = name :: rest := by
    cases h : launchParams sys d k.cmd with
    | nil => exact absurd h hne
    | cons a t => exact ⟨a, t, rfl⟩
  have hrec : (resolvePath sys (launchParams sys d k.cmd) k.cmd k.world).Path =
      (match sys.LookPath name k.world with
        | .error _ => name
        | .ok found => found) := by
    simp [resolvePath, hp]
  refine ⟨name, (resolvePath sys (launchParams sys d k.cmd) k.cmd k.world).Path,
    by simp [hp], ?_, ?_, ?_, ?_, ?_, ?_⟩
  · simp only [Run, hk, launch]
    split <;> (rw [hargs, hp]; rfl)
  · simp only [Run, hk, launch]
    split <;> rfl
  · intro cb
    have h := launch_event sys d k cb
    simpa only [Run, hk] using h
  · intro found hf
    rw [hrec, hf]
  · intro e he
    rw [hrec, he]
  · intro hname hfound
    rw [hrec]
    cases hl : sys.LookPath name k.world with
    | error e => exact hname
    | ok found => exact hfound found hl

/-- C4 amended, on a concrete run: the launcher of a privileged command is
looked up and recorded. -/
theorem run_records_path_witness :
    configure okSys demoDriver demoCmd demoPipes () = .ok demoConfigured ∧
    ∃ name recorded,
      (launchParams okSys demoDriver demoConfigured.cmd).head? = some name ∧
      (Run okSys demoDriver demoCmd demoPipes none ()).cmd.Args.head? = some name ∧
      (Run okSys demoDriver demoCmd demoPipes none ()).cmd.Path = recorded ∧
      (∀ cb, Event.CtRun recorded (launchParams okSys demoDriver demoConfigured.cmd) []
        ∈ (Run okSys demoDriver demoCmd demoPipes cb ()).log) ∧
      (∀ found, okSys.LookPath name () = .ok found → recorded = found) ∧
      (∀ e, okSys.LookPath name () = .error e → recorded = name) ∧
      (name ≠ "" → (∀ found, okSys.LookPath name () = .ok found → found ≠ "") →
        recorded ≠ "") :=
  ⟨rfl, run_records_path okSys demoDriver demoCmd demoPipes () demoConfigured rfl⟩

/-! ## Failing configuration calls -/

/-- C6 fails on the code: on a backend on which every mount addition fails
(and every other call succeeds), `Run` drops the errors of `AddMount`, goes on
to launch the process, records its pid and returns no error. -/
theorem run_launches_after_failed_mount :
    (∀ ct src dst s, (mountFailSys.AddMount ct src dst s).1 = some ⟨"libct: mount failed"⟩) ∧
    (Run mountFailSys demoDriver demoCmd demoPipes none ()).code = 0 ∧
    (Run mountFailSys demoDriver demoCmd demoPipes none ()).err = none ∧
    launched (Run mountFailSys demoDriver demoCmd demoPipes none ()).log = true ∧
    (Run mountFailSys demoDriver demoCmd demoPipes none ()).cmd.ContainerPid = 42 := by
  refine ⟨fun _ _ _ _ => rfl, ?_, ?_, ?_, ?_⟩ <;> decide

/-- A failing option flag, filesystem root or namespace mask aborts `Run`
before the launch: whenever the settings step fails, `Run` returns `-1` and
an error, the trace holds no launch, and the pid of the descriptor is the one
it had. -/
theorem run_aborts_on_failed_setting (sys : Sys σ κ) (d : driver) (c c₁ c₂ : Command)
    (pipes : Pipes) (cb : Option (Command → σ → Command × σ)) (s s₁ s₂ s₃ : σ) (ct : κ)
    (r : RunResult σ)
    (hT : sys.SetTerminal c pipes s = ((c₁, none), s₁))
    (hC : generateEnvConfig sys d c₁ s₁ = ((c₂, none), s₂))
    (hO : sys.CreateCt c₂.ID s₂ = (.ok ct, s₃))
    (hA : applySettings sys ct c₂ (mountAll sys ct c₂ s₃ [Event.CreateCt c₂.ID]).1
      (mountAll sys ct c₂ s₃ [Event.CreateCt c₂.ID]).2 = .error r) :
    (Run sys d c pipes cb s).code = -1 ∧ (Run sys d c pipes cb s).err ≠ none ∧
      launched (Run sys d c pipes cb s).log = false ∧
      (Run sys d c pipes cb s).cmd.ContainerPid = c₂.ContainerPid := by
  obtain ⟨h1, h2, h3, extra, hlog, -, hno⟩ := applySettings_error _ _ _ _ _ _ hA
  simp only [Run, configure, hT, hC, hO, hA]
  refine ⟨h1, h2, ?_, by rw [h3]⟩
  rw [hlog, launched_append, mountAll_launched, hno]
  rfl

/-! ## `Info` -/

/-- C8: when `OpenCt` fails, `Info` reports the error state `CT_ERROR = -1`,
`IsRunning` is false and the backend state is not queried; when `OpenCt`
succeeds, the reported state is the one the `State` query returns, and
`IsRunning` is true exactly when that state is `CT_RUNNING`. -/
theorem info_reports_state (sys : Sys σ κ) (d : driver) (id : String) (s : σ) :
    (∀ e s₁, sys.OpenCt id s = (.error e, s₁) →
      (Info sys d id s).1.state = CT_ERROR ∧ CT_ERROR = -1 ∧
      (Info sys d id s).1.IsRunning = false ∧ Event.State ∉ (Info sys d id s).2.2 ∧
      (Info sys d id s).1.ID = id) ∧
    (∀ ct s₁, sys.OpenCt id s = (.ok ct, s₁) →
      (Info sys d id s).1.state = (sys.State ct s₁).1.1 ∧
      ((Info sys d id s).1.IsRunning = true ↔ (sys.State ct s₁).1.1 = CT_RUNNING) ∧
      (Info sys d id s).1.ID = id) := by
  constructor
  · intro e s₁ h
    simp [Info, h, info.IsRunning, CT_ERROR, CT_RUNNING]
  · intro ct s₁ h
    simp [Info, h, info.IsRunning]

/-- C8, on concrete sessions: one that knows no container, and one whose
container runs. -/
theorem info_reports_state_witness :
    ((Info noCtSys demoDriver "c0ffee" ()).1.state = CT_ERROR ∧ CT_ERROR = -1 ∧
      (Info noCtSys demoDriver "c0ffee" ()).1.IsRunning = false ∧
      Event.State ∉ (Info noCtSys demoDriver "c0ffee" ()).2.2 ∧
      (Info noCtSys demoDriver "c0ffee" ()).1.ID = "c0ffee") ∧
    ((Info okSys demoDriver "c0ffee" ()).1.state = (okSys.State () ()).1.1 ∧
      ((Info okSys demoDriver "c0ffee" ()).1.IsRunning = true ↔
        (okSys.State () ()).1.1 = CT_RUNNING) ∧
      (Info okSys demoDriver "c0ffee" ()).1.ID = "c0ffee") :=
  ⟨(info_reports_state noCtSys demoDriver "c0ffee" ()).1 ⟨"libct: no such container"⟩ () rfl,
   (info_reports_state okSys demoDriver "c0ffee" ()).2 () () rfl⟩

/-! ## The init function -/

theorem initExec_log (sys : InitSys π) (args : InitArgs) (p : π) (log : List InitEvent) :
    ∃ extra, (initExec sys args p log).2 = log ++ extra := by
  unfold initExec
  repeat' split
  all_goals simp only [List.append_assoc]
  all_goals first | exact ⟨_, rfl⟩ | exact ⟨[], by simp⟩

theorem initFunc_eq_runSteps (sys : InitSys π) (args : InitArgs) (p : π) :
    initFunc sys args p =
      match runSteps sys args SetupStep.order p with
      | (ran, some e, _) => (.returned e, ran.map InitEvent.step)
      | (_, none, q) => initExec sys args q (SetupStep.order.map InitEvent.step) := by
  simp only [initFunc, SetupStep.order, runSteps]
  rcases h1 : sys.step .setupEnv args p with ⟨_ | e1, p1⟩ <;> simp only [List.map, List.append]
  rcases h2 : sys.step .setupHostname args p1 with ⟨_ | e2, p2⟩ <;>
    simp only [List.map, List.append]
  rcases h3 : sys.step .setupNetworking args p2 with ⟨_ | e3, p3⟩ <;>
    simp only [List.map, List.append]
  rcases h4 : sys.step .setupCapabilities args p3 with ⟨_ | e4, p4⟩ <;>
    simp only [List.map, List.append]
  rcases h5 : sys.step .setupWorkingDirectory args p4 with ⟨_ | e5, p5⟩ <;>
    simp only [List.map, List.append]
  rcases h6 : sys.step .changeUser args p5 with ⟨_ | e6, p6⟩ <;>
    simp only [List.map, List.append]
  all_goals rfl

theorem runSteps_none (sys : InitSys π) (args : InitArgs) (l : List SetupStep) (p : π)
    (h : (runSteps sys args l p).2.1 = none) : (runSteps sys args l p).1 = l := by
  induction l generalizing p with
  | nil => rfl
  | cons st rest ih =>
    simp only [runSteps] at h ⊢
    rcases hs : sys.step st args p with ⟨_ | e, q⟩
    · rw [hs] at h
      simp only at h ⊢
      rw [ih q h]
    · rw [hs] at h
      simp at h

theorem runSteps_first_failure (sys : InitSys π) (args : InitArgs) (l : List SetupStep) (p : π)
    (k : Nat) (hk : k < l.length) (e : GoError)
    (hpre : (runSteps sys args (l.take k) p).2.1 = none)
    (hfail : (sys.step (l.get ⟨k, hk⟩) args (runSteps sys args (l.take k) p).2.2).1 = some e) :
    (runSteps sys args l p).1 = l.take (k + 1) ∧ (runSteps sys args l p).2.1 = some e := by
  induction l generalizing p k with
  | nil => simp at hk
  | cons st rest ih =>
    cases k with
    | zero =>
      simp only [List.take, runSteps, List.get] at hfail
      simp only [runSteps]
      rcases hs : sys.step st args p with ⟨_ | e', q⟩
      · rw [hs] at hfail
        simp at hfail
      · rw [hs] at hfail
        simp only [Option.some.injEq] at hfail
        simp [hfail]
    | succ k =>
      simp only [List.take, runSteps, List.get] at hpre hfail
      simp only [runSteps]
      rcases hs : sys.step st args p with ⟨_ | e', q⟩
      · rw [hs] at hpre hfail
        simp only at hpre hfail
        have := ih q k (by simpa using hk) hpre hfail
        simp [this.1, this.2]
      · rw [hs] at hpre
        simp at hpre

/-- C7: the init function runs its six setup steps in the order
environment, hostname, networking, capabilities, working directory, user
switch.  If the first `k` steps succeed and step `k` fails with `e`, the
function returns exactly `e`, and what it did is the steps up to `k` and
nothing else: no later step, no lookup, no replacement of the process image.
If all six succeed, it goes on to the lookup and the replacement, after the
six steps.  A lookup or a replacement in the trace means that all six steps
succeeded. -/
theorem init_steps_in_order (sys : InitSys π) (args : InitArgs) (p : π) :
    (∀ k : Fin 6, ∀ e,
      (runSteps sys args (SetupStep.order.take k) p).2.1 = none →
      (sys.step (SetupStep.order.get k) args
        (runSteps sys args (SetupStep.order.take k) p).2.2).1 = some e →
      initFunc sys args p =
        (.returned e, (SetupStep.order.take (k + 1)).map InitEvent.step)) ∧
    ((runSteps sys args SetupStep.order p).2.1 = none →
      initFunc sys args p =
        initExec sys args (runSteps sys args SetupStep.order p).2.2
          (SetupStep.order.map InitEvent.step) ∧
      ∃ extra, (initFunc sys args p).2 = SetupStep.order.map InitEvent.step ++ extra) ∧
    ((∃ ev ∈ (initFunc sys args p).2, ev.isLookupOrExec = true) →
      (runSteps sys args SetupStep.order p).2.1 = none) := by
  refine ⟨?_, ?_, ?_⟩
  · intro k e hpre hfail
    have hk : (k : Nat) < SetupStep.order.length := k.isLt
    obtain ⟨h₁, h₂⟩ := runSteps_first_failure sys args SetupStep.order p k hk e hpre hfail
    rw [initFunc_eq_runSteps]
    rcases hr : runSteps sys args SetupStep.order p with ⟨ran, err, q⟩
    rw [hr] at h₁ h₂
    simp only at h₁ h₂
    subst h₁ h₂
    rfl
  · intro hall
    have hfun : initFunc sys args p =
        initExec sys args (runSteps sys args SetupStep.order p).2.2
          (SetupStep.order.map InitEvent.step) := by
      rw [initFunc_eq_runSteps]
      rcases hr : runSteps sys args SetupStep.order p with ⟨ran, err, q⟩
      rw [hr] at hall
      simp only at hall
      subst hall
      rfl
    exact ⟨hfun, by rw [hfun]; exact initExec_log _ _ _ _⟩
  · rintro ⟨ev, hmem, hev⟩
    rw [initFunc_eq_runSteps] at hmem
    rcases hr : runSteps sys args SetupStep.order p with ⟨ran, err, q⟩
    rw [hr] at hmem
    cases err with
    | none => rfl
    | some e =>
      simp only [List.mem_map] at hmem
      obtain ⟨st, -, rfl⟩ := hmem
      simp [InitEvent.isLookupOrExec] at hev

/-- C7, on concrete runs: the networking step fails; and no step fails. -/
theorem init_steps_in_order_witness :
    initFunc (demoInit (some .setupNetworking)) demoInitArgs () =
      (.returned ⟨"step failed"⟩,
        [.step .setupEnv, .step .setupHostname, .step .setupNetworking]) ∧
    (initFunc (demoInit none) demoInitArgs () =
        initExec (demoInit none) demoInitArgs
          (runSteps (demoInit none) demoInitArgs SetupStep.order ()).2.2
          (SetupStep.order.map InitEvent.step) ∧
      ∃ extra, (initFunc (demoInit none) demoInitArgs ()).2 =
        SetupStep.order.map InitEvent.step ++ extra) ∧
    (runSteps (demoInit none) demoInitArgs SetupStep.order ()).2.1 = none :=
  ⟨(init_steps_in_order (demoInit (some .setupNetworking)) demoInitArgs ()).1 2
      ⟨"step failed"⟩ (by decide) (by decide),
   (init_steps_in_order (demoInit none) demoInitArgs ()).2.1 (by decide),
   (init_steps_in_order (demoInit none) demoInitArgs ()).2.2
      ⟨.LookPath "sh", by decide, rfl⟩⟩

/-! ## `rootIsShared` -/

theorem hasPrefixChars_iff (s p : List Char) :
    hasPrefixChars s p = true ↔ ∃ t, s = p ++ t := by
  induction p generalizing s with
  | nil => simp [hasPrefixChars]
  | cons a p ih =>
    cases s with
    | nil => simp [hasPrefixChars]
    | cons c cs =>
      simp only [hasPrefixChars, Bool.and_eq_true, beq_iff_eq, ih, List.cons_append,
        List.cons.injEq]
      constructor
      · rintro ⟨rfl, t, rfl⟩
        exact ⟨t, rfl, rfl⟩
      · rintro ⟨t, rfl, rfl⟩
        exact ⟨rfl, t, rfl⟩

theorem HasPrefix_iff (s p : String) : HasPrefix s p = true ↔ ∃ t : String, s = p ++ t := by
  unfold HasPrefix
  rw [hasPrefixChars_iff]
  constructor
  · rintro ⟨t, ht⟩
    exact ⟨⟨t⟩, by apply String.ext; simpa using ht⟩
  · rintro ⟨t, rfl⟩
    exact ⟨t.data, by simp⟩

theorem rootIsSharedLoop_first (pre : List String) (line : String) (post : List String)
    (col : String)
    (hpre : ∀ l ∈ pre, ¬ (6 ≤ (Split l ' ').length ∧ (Split l ' ').get? 4 = some "/"))
    (hrow : 6 ≤ (Split line ' ').length ∧ (Split line ' ').get? 4 = some "/")
    (hcol : (Split line ' ').get? 6 = some col) :
    rootIsSharedLoop (pre ++ line :: post) = some (some (HasPrefix col "shared")) := by
  induction pre with
  | nil =>
    simp only [List.nil_append, rootIsSharedLoop]
    rw [if_pos (by simpa using hrow), hcol]
  | cons l pre ih =>
    simp only [List.cons_append, rootIsSharedLoop]
    rw [if_neg (by simpa using hpre l (List.mem_cons_self _ _))]
    exact ih (fun x hx => hpre x (List.mem_cons_of_mem _ hx))

theorem rootIsSharedLoop_none (lines : List String)
    (h : ∀ l ∈ lines, ¬ (6 ≤ (Split l ' ').length ∧ (Split l ' ').get? 4 = some "/")) :
    rootIsSharedLoop lines = some none := by
  induction lines with
  | nil => rfl
  | cons l lines ih =>
    simp only [rootIsSharedLoop]
    rw [if_neg (by simpa using h l (List.mem_cons_self _ _))]
    exact ih (fun x hx => h x (List.mem_cons_of_mem _ hx))

/-- C5: `rootIsShared` returns true when the read of the mount table fails;
and when the read succeeds and the table has a row whose fifth column is `/`,
it returns true exactly when the seventh column of the first such row starts
with `shared`, and false otherwise. -/
theorem rootIsShared_root_row :
    (∀ e, rootIsShared (.error e) = some true) ∧
    (∀ data pre line post col,
      Split data '\n' = pre ++ line :: post →
      (∀ l ∈ pre, (Split l ' ').get? 4 ≠ some "/") →
      (Split line ' ').get? 4 = some "/" →
      (Split line ' ').get? 6 = some col →
      ∃ b, rootIsShared (.ok data) = some b ∧
        (b = true ↔ ∃ rest : String, col = "shared" ++ rest)) := by
  refine ⟨fun _ => rfl, ?_⟩
  intro data pre line post col hsplit hpre hrow hcol
  have hlen : 6 ≤ (Split line ' ').length := by
    obtain ⟨h, -⟩ := List.get?_eq_some.mp hcol
    omega
  have hloop := rootIsSharedLoop_first pre line post col
    (fun l hl h => hpre l hl h.2) ⟨hlen, hrow⟩ hcol
  refine ⟨HasPrefix col "shared", ?_, HasPrefix_iff col "shared"⟩
  simp only [rootIsShared, hsplit, hloop]

/-- C5, on concrete tables: a shared root after another mount, and a private
root. -/
theorem rootIsShared_root_row_witness :
    (∃ b, rootIsShared (.ok
        "15 1 8:1 / /boot rw - ext4 /dev/sda1 rw\n16 1 8:2 / / rw shared:1 - ext4 /dev/sda2 rw\n")
        = some b ∧
      (b = true ↔ ∃ rest : String, "shared:1" = "shared" ++ rest)) ∧
    (∃ b, rootIsShared (.ok "16 1 8:2 / / rw - ext4 /dev/sda2 rw\n") = some b ∧
      (b = true ↔ ∃ rest : String, "-" = "shared" ++ rest)) :=
  ⟨rootIsShared_root_row.2
      "15 1 8:1 / /boot rw - ext4 /dev/sda1 rw\n16 1 8:2 / / rw shared:1 - ext4 /dev/sda2 rw\n"
      ["15 1 8:1 / /boot rw - ext4 /dev/sda1 rw"]
      "16 1 8:2 / / rw shared:1 - ext4 /dev/sda2 rw" [""] "shared:1"
      (by decide) (by decide) (by decide) (by decide),
   rootIsShared_root_row.2 "16 1 8:2 / / rw - ext4 /dev/sda2 rw\n"
      [] "16 1 8:2 / / rw - ext4 /dev/sda2 rw" [""] "-"
      (by decide) (by decide) (by decide) (by decide)⟩

/-- The shape of the table matters: on a row of exactly six columns with `/`
as the fifth, which the kernel does not write, the guard passes and the
lookup of the seventh column leaves the row. -/
theorem rootIsShared_six_columns :
    (Split "15 1 8:1 / / rw" ' ').length = 6 ∧
    (Split "15 1 8:1 / / rw" ' ').get? 4 = some "/" ∧
    (Split "15 1 8:1 / / rw" ' ').get? 6 = none ∧
    rootIsShared (.ok "15 1 8:1 / / rw") = none := by
  decide

/-! ## `strconv.Atoi` against decimal numerals -/

theorem readDigits_cons (n : Nat) (d : Char) (ds : List Char) :
    readDigits n (d :: ds) = readDigits (10 * n + (d.toNat - 48)) ds := rfl

theorem le_readDigits (n : Nat) (ds : List Char) : n ≤ readDigits n ds := by
  induction ds generalizing n with
  | nil => exact Nat.le_refl _
  | cons d ds ih =>
    rw [readDigits_cons]
    exact Nat.le_trans (by omega) (ih _)

theorem digitOf_of_isDecDigit (d : Char) (h : isDecDigit d = true) :
    digitOf d = some (d.toNat - 48) ∧ d.toNat - 48 < 10 := by
  simp only [isDecDigit, Bool.and_eq_true, decide_eq_true_eq] at h
  refine ⟨by simp [digitOf, h.1, h.2], by omega⟩

theorem isDecDigit_of_digitOf (d : Char) (v : Nat) (h : digitOf d = some v) (hv : v < 10) :
    isDecDigit d = true ∧ v = d.toNat - 48 := by
  unfold digitOf at h
  simp only [isDecDigit, Bool.and_eq_true, decide_eq_true_eq]
  split_ifs at h with h₁ h₂ h₃
  · simp only [Option.some.injEq] at h
    exact ⟨h₁, h.symm⟩
  · simp only [Option.some.injEq] at h
    omega
  · simp only [Option.some.injEq] at h
    omega

theorem parseUintLoop_ok (ds : List Char) (n : Nat)
    (hd : ∀ c ∈ ds, isDecDigit c = true) (hr : readDigits n ds < 2 ^ 64) :
    parseUintLoop 10 ((2 ^ 64 - 1) / 10 + 1) (2 ^ 64 - 1) ds n = (readDigits n ds, none) := by
  induction ds generalizing n with
  | nil => rfl
  | cons d ds ih =>
    obtain ⟨hdig, hlt⟩ := digitOf_of_isDecDigit d (hd d (List.mem_cons_self _ _))
    rw [readDigits_cons] at hr ⊢
    have hle := le_readDigits (10 * n + (d.toNat - 48)) ds
    have h64 : (2 : Nat) ^ 64 = 18446744073709551616 := by norm_num
    rw [h64] at hr
    simp only [parseUintLoop, hdig, h64]
    have h1 : ¬ (d.toNat - 48 ≥ 10) := by omega
    have h2 : ¬ (n ≥ (18446744073709551616 - 1) / 10 + 1) := by omega
    have h3 : (n * 10 % 18446744073709551616 + (d.toNat - 48)) % 18446744073709551616
        = 10 * n + (d.toNat - 48) := by omega
    have h4 : ¬ (10 * n + (d.toNat - 48) < n * 10 % 18446744073709551616 ∨
        10 * n + (d.toNat - 48) > 18446744073709551616 - 1) := by omega
    rw [if_neg h1, if_neg h2]
    simp only [h3, if_neg h4]
    have := ih (10 * n + (d.toNat - 48)) (fun c hc => hd c (List.mem_cons_of_mem _ hc))
      (by rw [h64]; exact hr)
    rw [h64] at this
    exact this

theorem parseUintLoop_none (ds : List Char) (n : Nat) (hn : n < 2 ^ 64)
    (h : (parseUintLoop 10 ((2 ^ 64 - 1) / 10 + 1) (2 ^ 64 - 1) ds n).2 = none) :
    (∀ c ∈ ds, isDecDigit c = true) ∧ readDigits n ds < 2 ^ 64 := by
  induction ds generalizing n with
  | nil => exact ⟨by simp, hn⟩
  | cons d ds ih =>
    have h64 : (2 : Nat) ^ 64 = 18446744073709551616 := by norm_num
    rw [h64] at hn
    simp only [parseUintLoop, h64] at h
    cases hdig : digitOf d with
    | none =>
      rw [hdig] at h
      simp at h
    | some v =>
      rw [hdig] at h
      simp only at h
      split_ifs at h with h1 h2 h3
      obtain ⟨hdd, hv⟩ := isDecDigit_of_digitOf d v hdig (by omega)
      have h5 : (n * 10 % 18446744073709551616 + v) % 18446744073709551616
          = 10 * n + (d.toNat - 48) := by omega
      rw [h5] at h
      have := ih (10 * n + (d.toNat - 48)) (by rw [h64]; omega) (by rw [h64]; exact h)
      refine ⟨?_, by rw [readDigits_cons]; exact this.2⟩
      intro c hc
      rcases List.mem_cons.mp hc with rfl | hc
      · exact hdd
      · exact this.1 c hc

theorem parseUintLoop_range (ds : List Char) (n : Nat)
    (h : (parseUintLoop 10 ((2 ^ 64 - 1) / 10 + 1) (2 ^ 64 - 1) ds n).2 = some .ErrRange) :
    (parseUintLoop 10 ((2 ^ 64 - 1) / 10 + 1) (2 ^ 64 - 1) ds n).1 = 2 ^ 64 - 1 := by
  induction ds generalizing n with
  | nil => simp [parseUintLoop] at h
  | cons d ds ih =>
    simp only [parseUintLoop] at h ⊢
    cases hdig : digitOf d with
    | none =>
      rw [hdig] at h
      simp at h
    | some v =>
      rw [hdig] at h
      simp only at h ⊢
      split_ifs at h ⊢ with h1 h2 h3
      · simp at h
      · rfl
      · rfl
      · exact ih _ h

/-- What `ParseUint` does on a base-10 numeral of 64 bits. -/
theorem ParseUint_spec (body : List Char) :
    (body ≠ [] → (∀ c ∈ body, isDecDigit c = true) → decimalValue body < 2 ^ 64 →
      ParseUint body 10 64 = (decimalValue body, none)) ∧
    ((ParseUint body 10 64).2 = none →
      body ≠ [] ∧ (∀ c ∈ body, isDecDigit c = true) ∧ decimalValue body < 2 ^ 64) ∧
    ((ParseUint body 10 64).2 = some .ErrRange → (ParseUint body 10 64).1 = 2 ^ 64 - 1) := by
  cases body with
  | nil => simp [ParseUint]
  | cons d ds =>
    refine ⟨fun _ hd hr => parseUintLoop_ok (d :: ds) 0 hd hr, fun h => ?_, fun h => ?_⟩
    · have := parseUintLoop_none (d :: ds) 0 (by norm_num) h
      exact ⟨by simp, this.1, this.2⟩
    · exact parseUintLoop_range (d :: ds) 0 h

theorem signAndDigits_cons (c : Char) (cs : List Char) :
    signAndDigits (c :: cs) = (c == '-', if c = '+' ∨ c = '-' then cs else c :: cs) := by
  unfold signAndDigits
  by_cases h1 : c = '-'
  · subst h1
    simp
  · by_cases h2 : c = '+'
    · subst h2
      simp
    · simp [h1, h2]

theorem wrapInt64_of_lt (n : Nat) (h : n < 2 ^ 63) : wrapInt64 (n : Int) = n := by
  have h63 : (2 : Nat) ^ 63 = 9223372036854775808 := by norm_num
  rw [h63] at h
  unfold wrapInt64
  norm_num
  omega

theorem wrapInt64_neg (n : Nat) (h : n ≤ 2 ^ 63) :
    wrapInt64 (-(wrapInt64 (n : Int))) = -(n : Int) := by
  have h63 : (2 : Nat) ^ 63 = 9223372036854775808 := by norm_num
  rw [h63] at h
  unfold wrapInt64
  norm_num
  omega

/-- On a valid numeral `Atoi` returns the number it denotes. -/
theorem Atoi_valid (s : String) (h : ValidInt s) : Atoi s = (intValue s, none) := by
  unfold ValidInt at h
  unfold intValue
  unfold Atoi ParseInt IntSize
  rcases hs : s.data with _ | ⟨c, cs⟩
  · rw [hs] at h
    simp [signAndDigits] at h
  · rw [hs, signAndDigits_cons] at h
    rw [signAndDigits_cons]
    simp only at h ⊢
    generalize (if c = '+' ∨ c = '-' then cs else c :: cs) = body at h ⊢
    obtain ⟨hne, hdig, hrange⟩ := h
    have h63 : (2 : Nat) ^ 63 = 9223372036854775808 := by norm_num
    have h64 : (2 : Nat) ^ 64 = 18446744073709551616 := by norm_num
    cases hneg : (c == '-')
    · rw [hneg] at hrange
      simp only [Bool.false_eq_true, if_false] at hrange
      have hlt : decimalValue body < 2 ^ 64 := by omega
      have h1 : ¬ (decimalValue body ≥ 2 ^ (64 - 1)) := by
        norm_num
        omega
      rw [(ParseUint_spec _).1 hne hdig hlt]
      simp only [ne_eq, not_true_eq_false, false_and, if_false, h1, and_false, Bool.false_eq_true]
      rw [wrapInt64_of_lt _ hrange]
    · rw [hneg] at hrange
      simp only [if_true] at hrange
      have hlt : decimalValue body < 2 ^ 64 := by omega
      have h1 : ¬ (decimalValue body > 2 ^ (64 - 1)) := by
        norm_num
        omega
      rw [(ParseUint_spec _).1 hne hdig hlt]
      simp only [ne_eq, not_true_eq_false, false_and, if_false, h1, and_false, Bool.true_eq_false,
        if_true]
      rw [wrapInt64_neg _ hrange]

/-- On anything else `Atoi` returns an error that carries the input. -/
theorem Atoi_invalid (s : String) (h : ¬ ValidInt s) :
    ∃ cause, (Atoi s).2 = some ⟨"ParseInt", s, cause⟩ := by
  unfold ValidInt at h
  unfold Atoi ParseInt IntSize
  rcases hs : s.data with _ | ⟨c, cs⟩
  · exact ⟨_, rfl⟩
  · rw [hs, signAndDigits_cons] at h
    simp only at h ⊢
    have h63 : (2 : Nat) ^ 63 = 9223372036854775808 := by norm_num
    have h64 : (2 : Nat) ^ 64 = 18446744073709551616 := by norm_num
    obtain ⟨-, hnone, hrange⟩ := ParseUint_spec (if c = '+' ∨ c = '-' then cs else c :: cs)
    generalize (if c = '+' ∨ c = '-' then cs else c :: cs) = body at h hnone hrange ⊢
    rcases hr : ParseUint body 10 64 with ⟨un, _ | _ | _⟩
    · -- no error from `ParseUint`: the numeral is out of the range of `int`
      rw [hr] at hnone
      obtain ⟨hne, hdig, hlt⟩ := hnone rfl
      have hun : un = decimalValue body := by
        have := (ParseUint_spec body).1 hne hdig hlt
        rw [hr] at this
        exact (Prod.mk.inj this).1
      subst hun
      simp only [hne, ne_eq, not_false_eq_true, hdig, implies_true, true_and] at h
      simp only [ne_eq, not_true_eq_false, false_and, if_false]
      cases hneg : (c == '-')
      · rw [hneg] at h
        simp only [Bool.false_eq_true, if_false] at h
        have h' : ¬ decimalValue body < 2 ^ 63 := fun hh => h ⟨hdig, hh⟩
        have h1 : 9223372036854775808 ≤ decimalValue body := by
          rw [h63] at h'
          omega
        exact ⟨.ErrRange, by simp [h1]⟩
      · rw [hneg] at h
        simp only [if_true] at h
        have h' : ¬ decimalValue body ≤ 2 ^ 63 := fun hh => h ⟨hdig, hh⟩
        have h1 : 9223372036854775808 < decimalValue body := by
          rw [h63] at h'
          omega
        exact ⟨.ErrRange, by simp [h1]⟩
    · exact ⟨.ErrSyntax, by simp⟩
    · rw [hr] at hrange
      have hun : un = 2 ^ 64 - 1 := hrange rfl
      subst hun
      cases hneg : (c == '-')
      · exact ⟨.ErrRange, by simp⟩
      · exact ⟨.ErrRange, by simp⟩

/-! ## The pid-parsing loop -/

theorem String_length_eq_zero (p : String) : p.length = 0 ↔ p = "" := by
  constructor
  · intro h
    cases p with
    | mk d =>
      have hd : d = [] := List.length_eq_zero.mp h
      subst hd
      rfl
  · rintro rfl
    rfl

theorem exists_first_failing {α : Type} (P : α → Prop) (l : List α) (h : ¬ ∀ x ∈ l, P x) :
    ∃ pre bad post, l = pre ++ bad :: post ∧ (∀ x ∈ pre, P x) ∧ ¬ P bad := by
  induction l with
  | nil => exact absurd (by simp) h
  | cons a l ih =>
    by_cases ha : P a
    · have hl : ¬ ∀ x ∈ l, P x := by
        intro hall
        apply h
        intro x hx
        rcases List.mem_cons.mp hx with rfl | hx
        · exact ha
        · exact hall x hx
      obtain ⟨pre, bad, post, rfl, hpre, hbad⟩ := ih hl
      refine ⟨a :: pre, bad, post, rfl, ?_, hbad⟩
      intro x hx
      rcases List.mem_cons.mp hx with rfl | hx
      · exact ha
      · exact hpre x hx
    · exact ⟨[], a, l, rfl, by simp, ha⟩

theorem pidLoop_valid (quote : String → String) (lines : List String) (acc : List Int)
    (h : ∀ l ∈ lines.filter (fun l => l ≠ ""), ValidInt l) :
    pidLoop quote lines acc = (acc ++ (lines.filter (fun l => l ≠ "")).map intValue, none) := by
  induction lines generalizing acc with
  | nil => simp [pidLoop]
  | cons l lines ih =>
    by_cases hl : l = ""
    · have hlen : l.length = 0 := (String_length_eq_zero l).mpr hl
      have hf : (l :: lines).filter (fun l => l ≠ "") = lines.filter (fun l => l ≠ "") := by
        simp [List.filter_cons, hl]
      rw [hf] at h ⊢
      simp only [pidLoop]
      rw [if_pos hlen]
      exact ih acc h
    · have hlen : ¬ l.length = 0 := fun hh => hl ((String_length_eq_zero l).mp hh)
      have hf : (l :: lines).filter (fun l => l ≠ "") = l :: lines.filter (fun l => l ≠ "") := by
        simp [List.filter_cons, hl]
      rw [hf] at h ⊢
      simp only [pidLoop]
      rw [if_neg hlen, Atoi_valid l (h l (List.mem_cons_self _ _))]
      simp only
      rw [ih (acc ++ [intValue l]) (fun x hx => h x (List.mem_cons_of_mem _ hx))]
      simp

theorem pidLoop_invalid (quote : String → String) (lines : List String) (acc : List Int)
    (pre : List String) (bad : String) (post : List String)
    (hsplit : lines.filter (fun l => l ≠ "") = pre ++ bad :: post)
    (hpre : ∀ l ∈ pre, ValidInt l) (hbad : ¬ ValidInt bad) :
    ∃ cause, pidLoop quote lines acc =
      (acc ++ pre.map intValue,
        some ⟨"Invalid pid '" ++ bad ++ "': " ++ (NumError.mk "ParseInt" bad cause).Error quote⟩) := by
  induction lines generalizing acc pre with
  | nil => simp at hsplit
  | cons l lines ih =>
    by_cases hl : l = ""
    · have hlen : l.length = 0 := (String_length_eq_zero l).mpr hl
      have hf : (l :: lines).filter (fun l => l ≠ "") = lines.filter (fun l => l ≠ "") := by
        simp [List.filter_cons, hl]
      rw [hf] at hsplit
      simp only [pidLoop]
      rw [if_pos hlen]
      exact ih acc pre hsplit hpre
    · have hlen : ¬ l.length = 0 := fun hh => hl ((String_length_eq_zero l).mp hh)
      have hf : (l :: lines).filter (fun l => l ≠ "") = l :: lines.filter (fun l => l ≠ "") := by
        simp [List.filter_cons, hl]
      rw [hf] at hsplit
      simp only [pidLoop]
      rw [if_neg hlen]
      cases pre with
      | nil =>
        simp only [List.nil_append, List.cons.injEq] at hsplit
        obtain ⟨rfl, -⟩ := hsplit
        obtain ⟨cause, hc⟩ := Atoi_invalid l hbad
        rcases hA : Atoi l with ⟨v, e⟩
        rw [hA] at hc
        simp only at hc
        subst hc
        exact ⟨cause, by simp⟩
      | cons p pre =>
        simp only [List.cons_append, List.cons.injEq] at hsplit
        obtain ⟨rfl, hrest⟩ := hsplit
        rw [Atoi_valid l (hpre l (List.mem_cons_self _ _))]
        simp only
        obtain ⟨cause, hc⟩ := ih (acc ++ [intValue l]) pre hrest
          (fun x hx => hpre x (List.mem_cons_of_mem _ hx))
        exact ⟨cause, by rw [hc]; simp⟩

/-- When the cgroup lookups and the read of the task file succeed,
`GetPidsForContainer` returns what the pid-parsing step makes of the content
of `<root>/<cgroup-subpath>/<ID>/tasks`. -/
theorem GetPidsForContainer_eq_parsePids (sys : Sys σ κ) (id : String) (s : σ)
    (cgroupRoot cgroupDir output : String)
    (hroot : sys.FindCgroupMountpoint "cpu" s = .ok cgroupRoot)
    (hdir : sys.GetThisCgroupDir "cpu" s = .ok cgroupDir)
    (hread : sys.ReadFile (sys.filepathJoin [cgroupRoot, cgroupDir, id, "tasks"]) s = .ok output) :
    GetPidsForContainer sys id s = parsePids sys.Quote output := by
  simp [GetPidsForContainer, hroot, hdir, hread]

theorem parsePids_invalid (quote : String → String) (output : String)
    (pre : List String) (bad : String) (post : List String)
    (hsplit : (Split output '\n').filter (fun l => l ≠ "") = pre ++ bad :: post)
    (hpre : ∀ l ∈ pre, ValidInt l) (hbad : ¬ ValidInt bad) :
    (parsePids quote output).1 = pre.map intValue ∧
      ∃ e, (parsePids quote output).2 = some e ∧
        ∃ before after : String, e.text = before ++ bad ++ after := by
  obtain ⟨cause, hc⟩ := pidLoop_invalid quote _ [] pre bad post hsplit hpre hbad
  unfold parsePids
  rw [hc]
  exact ⟨by simp, _, rfl, "Invalid pid '", "': " ++ (NumError.mk "ParseInt" bad cause).Error quote,
    by simp [String.append_assoc]⟩

theorem parsePids_valid (quote : String → String) (output : String)
    (h : ∀ l ∈ (Split output '\n').filter (fun l => l ≠ ""), ValidInt l) :
    parsePids quote output =
      (((Split output '\n').filter (fun l => l ≠ "")).map intValue, none) := by
  unfold parsePids
  rw [pidLoop_valid quote _ [] h]
  simp

theorem valid_of_parsePids_none (quote : String → String) (output : String)
    (hnone : (parsePids quote output).2 = none) :
    ∀ l ∈ (Split output '\n').filter (fun l => l ≠ ""), ValidInt l := by
  by_contra hnot
  obtain ⟨pre, bad, post, hsplit, hpre, hbad⟩ := exists_first_failing _ _ hnot
  obtain ⟨-, e, he, -⟩ := parsePids_invalid quote output pre bad post hsplit hpre hbad
  rw [he] at hnone
  exact absurd hnone (by simp)

/-- C2: the pid-parsing step of `GetPidsForContainer` succeeds exactly when
every non-empty line of the task file is a valid integer (an optional sign
and decimal digits, within the range of `int`); on success the result has one
entry per non-empty line, the value of that line, in file order; and when
some non-empty line is not a valid integer, it fails with the pids before the
first such line and an error whose message contains that line. -/
theorem parsePids_spec (quote : String → String) (output : String) :
    ((parsePids quote output).2 = none ↔
      ∀ l ∈ (Split output '\n').filter (fun l => l ≠ ""), ValidInt l) ∧
    ((parsePids quote output).2 = none →
      (parsePids quote output).1 =
        ((Split output '\n').filter (fun l => l ≠ "")).map intValue) ∧
    (∀ pre bad post, (Split output '\n').filter (fun l => l ≠ "") = pre ++ bad :: post →
      (∀ l ∈ pre, ValidInt l) → ¬ ValidInt bad →
      (parsePids quote output).1 = pre.map intValue ∧
      ∃ e, (parsePids quote output).2 = some e ∧
        ∃ before after : String, e.text = before ++ bad ++ after) := by
  refine ⟨⟨valid_of_parsePids_none quote output, fun h => ?_⟩, fun hnone => ?_,
    parsePids_invalid quote output⟩
  · rw [parsePids_valid quote output h]
  · rw [parsePids_valid quote output (valid_of_parsePids_none quote output hnone)]

/-- C2, on the two task files of the description. -/
theorem parsePids_spec_witness :
    parsePids okSys.Quote "123\n456\n" = ([123, 456], none) ∧
    ((parsePids okSys.Quote "123\nX\n").1 = [123] ∧
      ∃ e, (parsePids okSys.Quote "123\nX\n").2 = some e ∧
        ∃ before after : String, e.text = before ++ "X" ++ after) :=
  ⟨Prod.ext ((parsePids_spec okSys.Quote "123\n456\n").2.1
      ((parsePids_spec okSys.Quote "123\n456\n").1.mpr (by decide))) (by decide),
   (parsePids_spec okSys.Quote "123\nX\n").2.2 ["123"] "X" [] (by decide) (by decide) (by decide)⟩

/-! ## The sign of the pids -/

theorem toNat_eq_48 (c : Char) : c.toNat = 48 ↔ c = '0' := by
  constructor
  · intro h
    apply Char.ext
    apply UInt32.ext
    exact h
  · rintro rfl
    rfl

theorem readDigits_pos (ds : List Char) (n : Nat) (hd : ∀ c ∈ ds, isDecDigit c = true) :
    0 < readDigits n ds ↔ 0 < n ∨ ∃ c ∈ ds, c ≠ '0' := by
  induction ds generalizing n with
  | nil => simp [readDigits]
  | cons d ds ih =>
    have hdig := hd d (List.mem_cons_self _ _)
    simp only [isDecDigit, Bool.and_eq_true, decide_eq_true_eq] at hdig
    rw [readDigits_cons, ih _ (fun c hc => hd c (List.mem_cons_of_mem _ hc))]
    have h0 := toNat_eq_48 d
    simp only [List.mem_cons, exists_eq_or_imp, ne_eq]
    constructor
    · rintro (h | h)
      · by_cases hz : d = '0'
        · have := h0.mpr hz
          exact Or.inl (by omega)
        · exact Or.inr (Or.inl hz)
      · exact Or.inr (Or.inr h)
    · rintro (h | h | h)
      · exact Or.inl (by omega)
      · have : d.toNat ≠ 48 := fun hh => h (h0.mp hh)
        exact Or.inl (by omega)
      · exact Or.inr h

/-- The sign of the number a valid numeral denotes. -/
theorem intValue_pos (line : String) (h : ValidInt line) :
    0 < intValue line ↔
      line.data.head? ≠ some '-' ∧ ∃ c ∈ line.data, isDecDigit c = true ∧ c ≠ '0' := by
  unfold ValidInt at h
  unfold intValue
  rcases hs : line.data with _ | ⟨c, cs⟩
  · rw [hs] at h
    simp [signAndDigits] at h
  · rw [hs] at h
    obtain ⟨-, hdig, -⟩ := h
    have hpos := fun ds hd => readDigits_pos ds 0 hd
    by_cases h1 : c = '-'
    · subst h1
      simp only [signAndDigits, if_true, List.head?_cons, ne_eq, not_true_eq_false, false_and,
        iff_false, not_lt]
      omega
    · by_cases h2 : c = '+'
      · subst h2
        simp only [signAndDigits] at hdig ⊢
        simp only [show ¬ ('+' = '-') by decide, if_false, if_true] at hdig ⊢
        simp only [Bool.false_eq_true, if_false, Nat.cast_pos, decimalValue, hpos cs hdig,
          Nat.lt_irrefl, false_or, List.head?_cons, ne_eq, Option.some.injEq,
          show ¬ ('+' = '-') by decide, not_false_eq_true, true_and, List.mem_cons,
          exists_eq_or_imp, show isDecDigit '+' = false by decide, false_and]
        constructor
        · rintro ⟨d, hd, hne⟩
          exact ⟨d, hd, hdig d hd, hne⟩
        · rintro ⟨d, hd, -, hne⟩
          exact ⟨d, hd, hne⟩
      · simp only [signAndDigits, h1, h2, if_false] at hdig ⊢
        simp only [Bool.false_eq_true, if_false, Nat.cast_pos, decimalValue,
          hpos (c :: cs) hdig, Nat.lt_irrefl, false_or, List.head?_cons, ne_eq,
          Option.some.injEq, h1, not_false_eq_true, true_and]
        constructor
        · rintro ⟨d, hd, hne⟩
          exact ⟨d, hd, hdig d hd, hne⟩
        · rintro ⟨d, hd, -, hne⟩
          exact ⟨d, hd, hne⟩

/-- C9 fails as stated: on the task file with the lines `0` and `-5` the
pid-parsing step succeeds, and neither pid it returns is positive. -/
theorem parsePids_not_positive :
    parsePids okSys.Quote "0\n-5\n" = ([0, -5], none) ∧
    ¬ ∀ pid ∈ (parsePids okSys.Quote "0\n-5\n").1, 0 < pid := by
  decide

/-- C9, amended: when the pid-parsing step succeeds, each returned integer
is the value of its non-empty line, and it is positive exactly when the line
does not begin with `-` and holds a digit other than `0`. -/
theorem parsePids_positive (quote : String → String) (output : String)
    (h : (parsePids quote output).2 = none) :
    List.Forall₂
      (fun line pid => pid = intValue line ∧
        (0 < pid ↔ line.data.head? ≠ some '-' ∧ ∃ c ∈ line.data, isDecDigit c = true ∧ c ≠ '0'))
      ((Split output '\n').filter (fun l => l ≠ "")) (parsePids quote output).1 := by
  have hvalid := valid_of_parsePids_none quote output h
  rw [parsePids_valid quote output hvalid, List.forall₂_map_right_iff, List.forall₂_same]
  intro line hline
  exact ⟨rfl, intValue_pos line (hvalid line hline)⟩

/-- C9 amended, on a concrete task file. -/
theorem parsePids_positive_witness :
    List.Forall₂
      (fun line pid => pid = intValue line ∧
        (0 < pid ↔ line.data.head? ≠ some '-' ∧ ∃ c ∈ line.data, isDecDigit c = true ∧ c ≠ '0'))
      ((Split "123\n0\n\n-5\n+7" '\n').filter (fun l => l ≠ ""))
      (parsePids okSys.Quote "123\n0\n\n-5\n+7").1 :=
  parsePids_positive okSys.Quote "123\n0\n\n-5\n+7" (by decide)

end Libct
